import Mathlib

/-!
Verification development for the `wb-api` repository (Telegram bot pulling
Wildberries seller statistics, aggregating them per calendar day and writing
them into an Excel report).

The development shallowly embeds the three source modules:

* `src/wb_api/client.py`    — the rate-limited HTTP fetch client
  (`WBAPIClient._make_request`), modelled as a pure function over the list of
  responses the server would return to the successive attempts;
* `src/bot.py`              — the per-day aggregation performed by
  `WBBot.parse_command` (grouping of sales / orders / advert / funnel records
  by date and construction of the `wb_row_data` mapping);
* `src/wb_api/excel_handler.py` — the spreadsheet merge engine
  (`ExcelHandler.add_daily_data`, `_is_manual_field`, `_fill_wb_fields`,
  `_update_wb_fields`, `update_row`), modelled on the in-memory data frame.

Modelling conventions:
* Python floats are modelled as exact rationals (`ℚ`); Python's `round`
  (banker's rounding on binary floats) is modelled as rounding on `ℚ`.
* Python dicts are modelled as association lists with overwrite-on-insert
  (`alSet`) and first-hit lookup (`alGet`); `pandas` data-frame cells are the
  untyped (`object` dtype) values `Cell`; a missing value (`NaN`) is
  `Cell.blank`.  The per-column numeric-dtype coercion branch of
  `safe_set_value` therefore takes its `object`-dtype path (`return value`).
* String helpers (`in`-substring, `str.lower`, `str.strip`, `split('.')[0]`)
  are implemented structurally on `List Char` so that concrete instances can
  be checked by `decide`; `str.lower` is modelled for ASCII and the Cyrillic
  alphabet, which covers every string the code compares.
* The Excel file round-trip of `write_data`/`read_data` (cell formatting,
  header matching against an identical header row) is modelled as the
  identity on the in-memory table: the table state is the frame that
  `add_daily_data` reads, merges and writes back.
* `datetime.fromisoformat(..).strftime("%d.%m.%Y")` is modelled by parsing a
  `YYYY-MM-DD` 10-character prefix (time-of-day suffixes are accepted without
  validation); `datetime.strptime(.., "%Y-%m-%d")` requires the whole string
  to be exactly `YYYY-MM-DD`.
-/

/-! ## String helpers (structural, `decide`-friendly) -/

/-- `pat` occurs as a contiguous substring of `s` (Python's `pat in s`).
The empty pattern occurs in every string, as in Python. -/
def listSub : List Char → List Char → Bool
  | [], _ => true
  | _ :: _, [] => false
  | pat, s@(_ :: t) => pat.isPrefixOf s || listSub pat t

/-- Python's substring test `pat in s`. -/
def strContains (s pat : String) : Bool := listSub pat.toList s.toList

/-- One character of Python's `str.lower`, for ASCII `A`-`Z` and the Cyrillic
letters `А`-`Я` and `Ё` (the only letters the source code lowercases). -/
def ruLowerChar (c : Char) : Char :=
  if 'A' ≤ c ∧ c ≤ 'Z' then Char.ofNat (c.toNat + 32)
  else if 'А' ≤ c ∧ c ≤ 'Я' then Char.ofNat (c.toNat + 32)
  else if c = 'Ё' then 'ё'
  else c

/-- Python's `str.lower` (restricted to the alphabets the source compares). -/
def ruLower (s : String) : String := String.mk (s.toList.map ruLowerChar)

/-- Characters before the first `'.'`. -/
def takeUntilDot : List Char → List Char
  | [] => []
  | c :: t => if c = '.' then [] else c :: takeUntilDot t

/-- Python's `date.split('.')[0]` — the day token of a `DD.MM.YYYY` string. -/
def dayToken (s : String) : String := String.mk (takeUntilDot s.toList)

/-- Python's `str.strip()`. -/
def strTrim (s : String) : String :=
  String.mk (((s.toList.dropWhile Char.isWhitespace).reverse.dropWhile
    Char.isWhitespace).reverse)

/-- Python's `x or y` on numbers: `x` when truthy (non-zero), else `y`. -/
def orQ (x y : ℚ) : ℚ := if x ≠ 0 then x else y

/-- Python's `round(q, 2)`: round to two decimal places (over `ℚ`). -/
def round2 (q : ℚ) : ℚ := ((round (q * 100) : ℤ) : ℚ) / 100

/-! ## Date normalization -/

/-- Numeric value of a decimal digit character. -/
def digitVal (c : Char) : Nat := c.toNat - 48

/-- Length of month `m` of year `y` in days (Gregorian calendar, as validated
by Python's `datetime`). -/
def daysInMonth (y m : Nat) : Nat :=
  if m = 2 then (if (y % 4 = 0 ∧ y % 100 ≠ 0) ∨ y % 400 = 0 then 29 else 28)
  else if m = 4 ∨ m = 6 ∨ m = 9 ∨ m = 11 then 30 else 31

/-- Parse a character list of the exact shape `YYYY-MM-DD` into
`(year, month, day)`, validating the calendar date. -/
def parseYMD (l : List Char) : Option (Nat × Nat × Nat) :=
  match l with
  | [y1, y2, y3, y4, h1, m1, m2, h2, d1, d2] =>
    if ([y1, y2, y3, y4, m1, m2, d1, d2].all Char.isDigit ∧ h1 = '-' ∧ h2 = '-') then
      let y := 1000 * digitVal y1 + 100 * digitVal y2 + 10 * digitVal y3 + digitVal y4
      let m := 10 * digitVal m1 + digitVal m2
      let d := 10 * digitVal d1 + digitVal d2
      if 1 ≤ m ∧ m ≤ 12 ∧ 1 ≤ d ∧ d ≤ daysInMonth y m then some (y, m, d) else none
    else none
  | _ => none

/-- Zero-padded two-digit decimal rendering, as `strftime` produces. -/
def pad2 (n : Nat) : String := if n < 10 then "0" ++ toString n else toString n

/-- `strftime("%d.%m.%Y")` for a parsed `(year, month, day)`. -/
def fmtDMY (p : Nat × Nat × Nat) : String :=
  pad2 p.2.2 ++ "." ++ pad2 p.2.1 ++ "." ++ toString p.1

/-- `datetime.strptime(s, "%Y-%m-%d").strftime("%d.%m.%Y")`: the whole string
must be exactly `YYYY-MM-DD`; `none` models the `ValueError`. -/
def normYMD (s : String) : Option String := (parseYMD s.toList).map fmtDMY

/-- `datetime.fromisoformat(s).strftime("%d.%m.%Y")` as used on sales and
order records: the date is the `YYYY-MM-DD` prefix of an ISO timestamp
(`none` models the `ValueError` for an unparseable date). -/
def normSaleDate (s : String) : Option String := normYMD (String.mk (s.toList.take 10))

/-! ## Association lists (Python dict / data-frame row) -/

/-- First-hit lookup in an association list (Python `dict.get` /
`dict.__contains__`). -/
def alGet {α : Type} : List (String × α) → String → Option α
  | [], _ => none
  | (k', v) :: r, k => if k' = k then some v else alGet r k

/-- Lookup with a default (Python `dict.get(k, d)` / `defaultdict` read). -/
def alGetD {α : Type} (l : List (String × α)) (k : String) (d : α) : α :=
  (alGet l k).getD d

/-- Dict assignment `l[k] = v`: overwrite the first binding of `k`, else
append a new binding (insertion order, as Python dicts). -/
def alSet {α : Type} : List (String × α) → String → α → List (String × α)
  | [], k, v => [(k, v)]
  | (k', v') :: r, k, v => if k' = k then (k, v) :: r else (k', v') :: alSet r k v

theorem alGet_alSet {α : Type} (l : List (String × α)) (k k' : String) (v : α) :
    alGet (alSet l k v) k' = if k' = k then some v else alGet l k' := by
  induction l with
  | nil =>
    by_cases h : k' = k
    · subst h; simp [alSet, alGet]
    · simp [alSet, alGet, h, Ne.symm h]
  | cons p r ih =>
    obtain ⟨k0, v0⟩ := p
    by_cases h0 : k0 = k
    · subst h0
      by_cases h : k' = k0
      · subst h; simp [alSet, alGet]
      · simp [alSet, alGet, h, Ne.symm h]
    · by_cases h1 : k0 = k'
      · subst h1
        simp [alSet, alGet, h0, Ne.symm h0]
      · simp [alSet, alGet, h0, h1, ih]

theorem alGet_alSet_self {α : Type} (l : List (String × α)) (k : String) (v : α) :
    alGet (alSet l k v) k = some v := by simp [alGet_alSet]

theorem alGet_alSet_ne {α : Type} (l : List (String × α)) (k k' : String) (v : α)
    (h : k' ≠ k) : alGet (alSet l k v) k' = alGet l k' := by simp [alGet_alSet, h]

/-! ## Rate-limited fetch client (`src/wb_api/client.py`, `_make_request`) -/

/-- One answer of the HTTP layer to one attempt of `_make_request`: either a
response with a status code (and the optional `Retry-After` header), or a
`requests.exceptions.Timeout`. -/
inductive HResp where
  | http (code : Nat) (retryAfter : Option Nat) : HResp
  | timeout : HResp
deriving DecidableEq, Repr

/-- Observable outcome of `_make_request`: which exit was taken, how many
requests were issued (`attempts`) and which sleeps were performed, in order.
`rateLimitError` is the dedicated 429-exhaustion `HTTPError`,
`httpError c` the `HTTPError` for status `c`, `noResponse` a model artifact
for an attempt with no scripted response (never reached in the theorems). -/
inductive ReqOutcome where
  | success (attempts : Nat) (sleeps : List Nat) : ReqOutcome
  | rateLimitError (attempts : Nat) (sleeps : List Nat) : ReqOutcome
  | httpError (code : Nat) (attempts : Nat) (sleeps : List Nat) : ReqOutcome
  | timeoutError (attempts : Nat) (sleeps : List Nat) : ReqOutcome
  | noResponse : ReqOutcome
deriving DecidableEq, Repr

/-- The retry loop of `WBAPIClient._make_request` (client.py lines 49-124).
`attempt` is the 0-based loop index, `maxRetries` the bound of
`range(max_retries)`, `sleeps` the `time.sleep` calls performed so far.
Faithful to the source order: the 429 branch (server-hinted delay, default
60) comes first, then the immediate 400 raise, then `raise_for_status`
(any status ≥ 400 raises an `HTTPError`, which is re-raised at once for
400/401/403 and retried with exponential backoff `2^attempt * 5` otherwise);
timeouts retry with the same exponential backoff. -/
def makeRequestGo (maxRetries : Nat) : List HResp → Nat → List Nat → ReqOutcome
  | [], _, _ => .noResponse
  | r :: rest, attempt, sleeps =>
    match r with
    | .timeout =>
      if attempt + 1 < maxRetries then
        makeRequestGo maxRetries rest (attempt + 1) (sleeps ++ [2 ^ attempt * 5])
      else .timeoutError (attempt + 1) sleeps
    | .http code ra =>
      if code = 429 then
        let retryAfter := ra.getD 60
        if attempt + 1 < maxRetries then
          makeRequestGo maxRetries rest (attempt + 1) (sleeps ++ [retryAfter])
        else .rateLimitError (attempt + 1) sleeps
      else if code = 400 then .httpError 400 (attempt + 1) sleeps
      else if 400 ≤ code then
        if code = 401 ∨ code = 403 then .httpError code (attempt + 1) sleeps
        else if attempt + 1 < maxRetries then
          makeRequestGo maxRetries rest (attempt + 1) (sleeps ++ [2 ^ attempt * 5])
        else .httpError code (attempt + 1) sleeps
      else .success (attempt + 1) sleeps

/-- `WBAPIClient._make_request` with the default `max_retries = 5`, run
against the scripted per-attempt responses. -/
def make_request (responses : List HResp) : ReqOutcome :=
  makeRequestGo 5 responses 0 []

/-- C3: a run of 429 responses sleeps the server hint (default 60) before
every retry; five straight 429s end in the dedicated rate-limit error after
exactly 5 attempts and 4 sleeps; three 429s with `Retry-After: 2` followed
by a 200 succeed with 4 attempts, sleeping 2 seconds before each retry. -/
theorem make_request_rate_limit (h0 h1 h2 h3 h4 : Option Nat) :
    make_request [.http 429 h0, .http 429 h1, .http 429 h2, .http 429 h3,
        .http 200 none]
      = .success 5 [h0.getD 60, h1.getD 60, h2.getD 60, h3.getD 60]
    ∧ make_request [.http 429 h0, .http 429 h1, .http 429 h2, .http 429 h3,
        .http 429 h4]
      = .rateLimitError 5 [h0.getD 60, h1.getD 60, h2.getD 60, h3.getD 60]
    ∧ make_request [.http 429 (some 2), .http 429 (some 2), .http 429 (some 2),
        .http 200 none]
      = .success 4 [2, 2, 2] := by
  refine ⟨?_, ?_, ?_⟩ <;> simp [make_request, makeRequestGo]

/-- C6: a 400 response makes `_make_request` raise on the very first attempt
with no sleep and no retry, whatever would come next; 401 and 403 likewise
are never retried. -/
theorem make_request_bad_request (ra : Option Nat) (rest : List HResp) :
    make_request (.http 400 ra :: rest) = .httpError 400 1 []
    ∧ make_request (.http 401 ra :: rest) = .httpError 401 1 []
    ∧ make_request (.http 403 ra :: rest) = .httpError 403 1 [] := by
  refine ⟨?_, ?_, ?_⟩ <;> simp [make_request, makeRequestGo]

/-! ## Data-frame cells -/

/-- An untyped cell value: `blank` is `NaN`/missing, `num` a Python number,
`str` a Python string. -/
inductive Cell where
  | blank : Cell
  | num (q : ℚ) : Cell
  | str (s : String) : Cell
deriving DecidableEq, Repr

/-- A data-frame row / Python dict of cell values. -/
abbrev Row := List (String × Cell)

/-! ## Aggregator records (`src/bot.py`, `parse_command`) -/

/-- A record of the `sales` endpoint, with the fields `parse_command` reads
(`.get` defaults folded into the field values). -/
structure Sale where
  date : String
  nmId : Int
  priceWithDisc : ℚ
  totalPrice : ℚ
  isRealization : Bool
deriving DecidableEq, Repr

/-- A record of the `orders` endpoint. -/
structure OrderRec where
  date : String
  isCancel : Bool
  totalPrice : ℚ
deriving DecidableEq, Repr

/-- A record of the `stocks` endpoint. -/
structure StockRec where
  nmId : Int
  quantity : ℚ
  amount : ℚ
deriving DecidableEq, Repr

/-- A record of the `advert` endpoint. -/
structure AdvRec where
  date : String
  impressions : ℚ
  clicks : ℚ
  sum : ℚ
  cost : ℚ
  cpc : ℚ
deriving DecidableEq, Repr

/-- A record of the sales-funnel endpoint. -/
structure FunRec where
  date : String
  openCount : ℚ
  cartCount : ℚ
  orderCount : ℚ
deriving DecidableEq, Repr

/-- One value of the `data_by_date` defaultdict (bot.py lines 139-144):
the sales of the day, their summed `totalPrice`, the count of
`isRealization` records, and the set of articles seen (modelled as the
first-occurrence list, summation over it being order-independent). -/
structure DayBucket where
  sales : List Sale
  total_price : ℚ
  total_quantity : Nat
  articles : List Int
deriving DecidableEq, Repr

def emptyBucket : DayBucket := ⟨[], 0, 0, []⟩

/-- One iteration of the sales grouping loop (bot.py lines 151-162).  The
loop is not wrapped in `try`, so an unparseable date raises and aborts the
whole command: the fold is `Option`-valued. -/
def salesStep (acc : List (String × DayBucket)) (s : Sale) :
    Option (List (String × DayBucket)) :=
  match normSaleDate s.date with
  | none => none
  | some d =>
    let b := alGetD acc d emptyBucket
    some (alSet acc d
      { sales := b.sales ++ [s]
        total_price := b.total_price + s.totalPrice
        total_quantity := b.total_quantity + (if s.isRealization then 1 else 0)
        articles := if s.nmId ∈ b.articles then b.articles else b.articles ++ [s.nmId] })

/-- `data_by_date` (bot.py lines 139-162). -/
def dataByDate (sales : List Sale) : Option (List (String × DayBucket)) :=
  sales.foldlM salesStep []

/-- One value of the `orders_by_date` defaultdict (bot.py line 165). -/
structure OrdBucket where
  count : Nat
  total_price : ℚ
deriving DecidableEq, Repr

/-- One iteration of the orders grouping loop (bot.py lines 166-174): the
date parse is inside `try`, so an unparseable date skips the record; only
non-cancelled orders touch (and thereby create) the date's bucket. -/
def ordersStep (acc : List (String × OrdBucket)) (o : OrderRec) :
    List (String × OrdBucket) :=
  match normSaleDate o.date with
  | none => acc
  | some d =>
    if o.isCancel then acc
    else
      let b := alGetD acc d ⟨0, 0⟩
      alSet acc d ⟨b.count + 1, b.total_price + o.totalPrice⟩

/-- `orders_by_date` (bot.py lines 164-174). -/
def ordersByDate (orders : List OrderRec) : List (String × OrdBucket) :=
  orders.foldl ordersStep []

/-- One value of the `advert_by_date` defaultdict (bot.py lines 177-185). -/
structure AdvBucket where
  impressions : ℚ
  clicks : ℚ
  ctr : ℚ
  cost_auc : ℚ
  cost_ark : ℚ
  click_price_auc : ℚ
  click_price_ark : ℚ
deriving DecidableEq, Repr

def emptyAdvBucket : AdvBucket := ⟨0, 0, 0, 0, 0, 0, 0⟩

/-- The date key an advert record is grouped under (bot.py lines 190-197):
an empty date skips the record; a `YYYY-MM-DD` date is reformatted; any
other string is used as the key unchanged. -/
def advDateKey (a : AdvRec) : Option String :=
  if a.date = "" then none
  else some ((normYMD a.date).getD a.date)

/-- One iteration of the advert aggregation loop (bot.py lines 187-219). -/
def advStep (acc : List (String × AdvBucket)) (a : AdvRec) :
    List (String × AdvBucket) :=
  match advDateKey a with
  | none => acc
  | some d =>
    let b := alGetD acc d emptyAdvBucket
    let cost_total := orQ a.sum (orQ a.cost 0)
    let b := { b with
      impressions := b.impressions + orQ a.impressions 0
      clicks := b.clicks + orQ a.clicks 0
      cost_auc := b.cost_auc + cost_total
      cost_ark := b.cost_ark + 0 }
    let clicks := orQ a.clicks 0
    let cpc := orQ a.cpc 0
    let b :=
      if 0 < cpc then { b with click_price_auc := cpc, click_price_ark := cpc }
      else if 0 < clicks ∧ 0 < cost_total then
        { b with click_price_auc := cost_total / clicks
                 click_price_ark := cost_total / clicks }
      else b
    alSet acc d b

/-- `advert_by_date` (bot.py lines 176-219). -/
def advertByDate (adverts : List AdvRec) : List (String × AdvBucket) :=
  adverts.foldl advStep []

/-- One value of the `funnel_by_date` defaultdict (bot.py lines 222-226). -/
structure FunBucket where
  card_views : ℚ
  baskets : ℚ
  orders : ℚ
deriving DecidableEq, Repr

/-- One iteration of the funnel aggregation loop (bot.py lines 228-241):
an empty date skips the record; a `strptime("%Y-%m-%d")` failure raises
inside `try` and also skips the record. -/
def funStep (acc : List (String × FunBucket)) (f : FunRec) :
    List (String × FunBucket) :=
  if f.date = "" then acc
  else
    match normYMD f.date with
    | none => acc
    | some d =>
      let b := alGetD acc d ⟨0, 0, 0⟩
      alSet acc d
        ⟨b.card_views + orQ f.openCount 0, b.baskets + orQ f.cartCount 0,
          b.orders + orQ f.orderCount 0⟩

/-- `funnel_by_date` (bot.py lines 221-241). -/
def funnelByDate (funnels : List FunRec) : List (String × FunBucket) :=
  funnels.foldl funStep []

/-- The stock quantity resolved for one article (bot.py lines 281-285):
the first `stocks` record with that `nmId`, reading `quantity or amount
or 0`; absent article contributes nothing. -/
def stockQty (stocks : List StockRec) (article : Int) : ℚ :=
  match stocks.find? (fun s => s.nmId == article) with
  | some s => orQ s.quantity (orQ s.amount 0)
  | none => 0

/-- `total_stock` (bot.py lines 279-285): sum of the resolved stock over the
date's articles. -/
def totalStockFor (stocks : List StockRec) (articles : List Int) : ℚ :=
  articles.foldl (fun acc a => acc + stockQty stocks a) 0

/-! ### Construction of `wb_row_data` (bot.py lines 259-338)

The sequential dict-building block is decomposed into one function per
source paragraph; `buildCore` chains them in source order. -/

/-- bot.py lines 259-264: the seed dict (`month_total` is the constant 0 of
line 108). -/
def baseRow (b : DayBucket) : Row :=
  [("К день", .num b.total_price), ("Касса день", .num b.total_price),
   ("Касса месяц", .num 0)]

/-- bot.py lines 266-271: order count from `orders_by_date`, else the
sales-derived fallback `total_quantity`. -/
def ordSection (r : Row) (orders : List OrderRec) (b : DayBucket) (d : String) : Row :=
  match alGet (ordersByDate orders) d with
  | some ob => alSet r "заказы" (.num ob.count)
  | none => alSet r "заказы" (.num b.total_quantity)

/-- bot.py lines 273-276: mean discounted price over the date's sales. -/
def priceSection (r : Row) (b : DayBucket) : Row :=
  if b.sales ≠ [] then
    alSet r "ЦЕНА товара" (.num (((b.sales.map Sale.priceWithDisc).sum) / b.sales.length))
  else r

/-- bot.py lines 278-292: stock remainder and the `хран день` heuristic
(`0.15` per unit, rounded to 2 decimals), only when stock was found. -/
def stockSection (r : Row) (stocks : List StockRec) (b : DayBucket) : Row :=
  let ts := totalStockFor stocks b.articles
  if 0 < ts then
    alSet (alSet r "остаток товара на складе" (.num ts))
      "хран день" (.num (round2 (ts * (15 / 100))))
  else r

/-- bot.py lines 296-329: the advert block for a date present in
`advert_by_date`. -/
def advSection (r : Row) (adv : AdvBucket) : Row :=
  let r := alSet r "показы" (.num adv.impressions)
  let r := alSet r "клики" (.num adv.clicks)
  let r :=
    if 0 < adv.clicks ∧ 0 < adv.impressions then
      alSet r "CTR" (.num (adv.clicks / adv.impressions * 100))
    else r
  let r :=
    if 0 < adv.click_price_auc then alSet r "цена клика АУКЦ" (.num adv.click_price_auc)
    else if 0 < adv.clicks ∧ 0 < adv.cost_auc then
      alSet r "цена клика АУКЦ" (.num (adv.cost_auc / adv.clicks))
    else r
  let r :=
    if 0 < adv.click_price_ark then alSet r "цена клика АРК" (.num adv.click_price_ark)
    else if 0 < adv.clicks ∧ 0 < adv.cost_ark then
      alSet r "цена клика АРК" (.num (adv.cost_ark / adv.clicks))
    else r
  let r :=
    if 0 < adv.clicks then
      if 0 < adv.click_price_auc then alSet r "цена клика" (.num adv.click_price_auc)
      else if 0 < adv.click_price_ark then alSet r "цена клика" (.num adv.click_price_ark)
      else if 0 < adv.cost_auc then alSet r "цена клика" (.num (adv.cost_auc / adv.clicks))
      else if 0 < adv.cost_ark then alSet r "цена клика" (.num (adv.cost_ark / adv.clicks))
      else r
    else r
  let r := alSet r "расход АУКЦ" (.num adv.cost_auc)
  alSet r "расход АРК" (.num adv.cost_ark)

/-- bot.py lines 295-329: the advert block, skipped when the date has no
advert bucket. -/
def advApply (r : Row) (adverts : List AdvRec) (d : String) : Row :=
  match alGet (advertByDate adverts) d with
  | some adv => advSection r adv
  | none => r

/-- bot.py lines 332-338: the funnel block; a positive funnel order count
overrides `заказы`. -/
def funApply (r : Row) (funnels : List FunRec) (d : String) : Row :=
  match alGet (funnelByDate funnels) d with
  | some fb =>
    let r := alSet r "перешли в карточку" (.num fb.card_views)
    let r := alSet r "корзин" (.num fb.baskets)
    if 0 < fb.orders then alSet r "заказы" (.num fb.orders) else r
  | none => r

/-- `wb_row_data` for the target date, given its sales bucket `b`
(bot.py lines 259-338 in source order). -/
def buildCore (b : DayBucket) (stocks : List StockRec) (orders : List OrderRec)
    (adverts : List AdvRec) (funnels : List FunRec) (d : String) : Row :=
  funApply
    (advApply
      (stockSection (priceSection (ordSection (baseRow b) orders b d) b) stocks b)
      adverts d)
    funnels d

/-- `wb_row_data` construction: `none` models the early `return` when the
target date has no sales bucket (bot.py lines 252-254). -/
def buildWbRow (g : List (String × DayBucket)) (stocks : List StockRec)
    (orders : List OrderRec) (adverts : List AdvRec) (funnels : List FunRec)
    (d : String) : Option Row :=
  (alGet g d).map (fun b => buildCore b stocks orders adverts funnels d)

/-- The advert/funnel `try/except` of bot.py lines 120-134: a failed fetch
is caught, logged as a warning and replaced by the empty list. -/
def fetchOptional {α : Type} (r : Except String (List α)) : List α :=
  match r with
  | .ok l => l
  | .error _ => []

/-- The dataflow of `parse_command` from fetched records to `wb_row_data`:
the advert and funnel fetches may fail (`Except.error`) and degrade to empty
data; a sales record with an unparseable date raises (`.error`); a target
date without sales ends the command early with no row (`.ok none`). -/
def parseCommandRow (sales : List Sale) (stocks : List StockRec)
    (orders : List OrderRec) (advertRes : Except String (List AdvRec))
    (funnelRes : Except String (List FunRec)) (d : String) :
    Except String (Option Row) :=
  let adverts := fetchOptional advertRes
  let funnels := fetchOptional funnelRes
  match dataByDate sales with
  | none => .error "invalid sale date"
  | some g => .ok (buildWbRow g stocks orders adverts funnels d)

/-! ## Report store (`src/wb_api/excel_handler.py`) -/

/-- The in-memory table: the data frame's column schema and data rows.  The
`write_data`/`read_data` file round-trip is the identity on this state (see
the header comment). -/
structure Table where
  cols : List String
  rows : List Row
deriving DecidableEq, Repr

/-- `pandas` rendering of a cell under `.astype(str)`: `NaN` becomes the
string `"nan"`; numbers are rendered decimally (only the string cells are
ever matched against a digit token in the theorems below). -/
def cellStr : Cell → String
  | .blank => "nan"
  | .str s => s
  | .num q => toString q

/-- `pd.notna(x) and str(x).strip() != ""` — the non-blank test of
`add_daily_data` (excel_handler.py line 371). -/
def cellNonBlank : Cell → Bool
  | .blank => false
  | .str s => strTrim s ≠ ""
  | .num _ => true

/-- `_get_manual_fields` (excel_handler.py lines 283-297). -/
def manualFieldsList : List String :=
  ["ставка/реклама", "комментарий", "Касса месяц", "М с 1 шт\nнаши данные",
   "М с 1 шт наши данные"]

/-- `_is_manual_field` (excel_handler.py lines 299-327): containment either
way against the manual-field list, plus the lowercase special checks. -/
def is_manual_field (c : String) : Bool :=
  manualFieldsList.any (fun m => strContains c m || strContains m c)
  || (strContains (ruLower c) "ставка" && strContains (ruLower c) "реклама")
  || strContains (ruLower c) "комментарий"
  || strContains (ruLower c) "касса месяц"
  || (strContains (ruLower c) "м с 1 шт" && strContains (ruLower c) "наши данные")

/-- `wb_data.get(key, "")`. -/
def wbGet (wb : Row) (k : String) : Cell := alGetD wb k (.str "")

/-- The column-to-key mapping of `_update_wb_fields`
(excel_handler.py lines 512-545), in source branch order.  `none` means no
branch matched and the column is left untouched.  Note the last branch reads
the key `"остаток товар"`, unlike `_fill_wb_fields`. -/
def updateFieldKey (c : String) : Option String :=
  let l := ruLower c
  if strContains l "касса день" then some "Касса день"
  else if strContains l "показы" then some "показы"
  else if strContains l "клики" && !strContains l "клика" then some "клики"
  else if strTrim c = "CTR" then some "CTR"
  else if strContains l "цена клика" && strContains l "аукц" then some "цена клика АУКЦ"
  else if strContains l "цена клика" && strContains l "арк" then some "цена клика АРК"
  else if strContains l "цена клика" then some "цена клика"
  else if strContains l "расход аукц" then some "расход АУКЦ"
  else if strContains l "расход арк" then some "расход АРК"
  else if strContains l "перешли в карточку" then some "перешли в карточку"
  else if strContains l "корзин" then some "корзин"
  else if strContains l "заказы" then some "заказы"
  else if strContains l "хран день" then some "хран день"
  else if strContains l "итого прибыль" then some "итого прибыль"
  else if strContains l "цена" && strContains l "товара" then some "ЦЕНА товара"
  else if strContains l "остаток" then some "остаток товар"
  else none

/-- `safe_set_value` (excel_handler.py lines 487-502) on an `object`-dtype
column: `""` (and `None`) becomes `NaN`, any other value is stored as is. -/
def safe_set_value : Cell → Cell
  | .str "" => .blank
  | v => v

/-- The per-column value of `_fill_wb_fields` (excel_handler.py
lines 430-473), in source branch order; the unmatched default `""` and any
`""` lookup result are stored as `NaN`.  The stock branch requires both
tokens and falls back from `"остаток товара на складе"` to
`"остаток товар"`. -/
def fillFieldValue (wb : Row) (c : String) : Cell :=
  let l := ruLower c
  let v : Cell :=
    if strContains l "касса день" then wbGet wb "Касса день"
    else if strContains l "показы" then wbGet wb "показы"
    else if strContains l "клики" && !strContains l "клика" then wbGet wb "клики"
    else if strTrim c = "CTR" then wbGet wb "CTR"
    else if strContains l "цена клика" && strContains l "аукц" then wbGet wb "цена клика АУКЦ"
    else if strContains l "цена клика" && strContains l "арк" then wbGet wb "цена клика АРК"
    else if strContains l "цена клика" then wbGet wb "цена клика"
    else if strContains l "расход аукц" then wbGet wb "расход АУКЦ"
    else if strContains l "расход арк" then wbGet wb "расход АРК"
    else if strContains l "перешли в карточку" then wbGet wb "перешли в карточку"
    else if strContains l "корзин" then wbGet wb "корзин"
    else if strContains l "заказы" then wbGet wb "заказы"
    else if strContains l "хран день" then wbGet wb "хран день"
    else if strContains l "итого прибыль" then wbGet wb "итого прибыль"
    else if strContains l "цена" && strContains l "товара" then wbGet wb "ЦЕНА товара"
    else if strContains l "остаток" && strContains l "складе" then
      alGetD wb "остаток товара на складе" (alGetD wb "остаток товар" (.str ""))
    else .str ""
  if v = .str "" then .blank else v

/-- The manual-columns pass of the existing-row branch of `add_daily_data`
(excel_handler.py lines 367-378): a manual column already non-blank in the
row is left alone; a blank one is filled from the first matching
`manual_data` key (containment either way), when any was supplied. -/
def preserveManual (cols : List String) (r : Row) (md : Row) : Row :=
  cols.foldl
    (fun acc col =>
      if is_manual_field col ∧ ¬ cellNonBlank (alGetD r col .blank) then
        if md ≠ [] then
          match md.find? (fun kv => strContains col kv.1 || strContains kv.1 col) with
          | some kv => alSet acc col kv.2
          | none => acc
        else acc
      else acc)
    r

/-- `_update_wb_fields` (excel_handler.py lines 475-555): every non-manual
column whose name matches a mapping branch is overwritten with
`safe_set_value` of the corresponding `wb_data` entry. -/
def update_wb_fields (cols : List String) (r : Row) (wb : Row) : Row :=
  cols.foldl
    (fun acc col =>
      if is_manual_field col then acc
      else
        match updateFieldKey col with
        | some k => alSet acc col (safe_set_value (wbGet wb k))
        | none => acc)
    r

/-- The merge applied to the first row matching the date
(excel_handler.py lines 363-381). -/
def mergeRow (cols : List String) (r : Row) (wb : Row) (md : Row) : Row :=
  update_wb_fields cols (preserveManual cols r md) wb

/-- The `"акк/дата"` date-column search used when building a new row
(excel_handler.py lines 387-391): the first column containing the marker
token (lowercased or verbatim). -/
def findDateCol (cols : List String) : Option String :=
  cols.find? (fun c => strContains (ruLower c) "акк/дата" || strContains c "акк/дата")

/-- The new-row branch of `add_daily_data` (excel_handler.py lines 383-414):
all columns start as `""`; the date column gets the date string; manual
columns are filled from `manual_data`; `_fill_wb_fields` fills the
non-manual columns (overwriting the date column with `NaN`, since no
mapping branch matches it); the final guard restores the date string. -/
def buildNewRow (cols : List String) (date : String) (wb : Row) (md : Row) : Row :=
  let base : Row := cols.map (fun c => (c, Cell.str ""))
  let base :=
    match findDateCol cols with
    | some c => alSet base c (.str date)
    | none => base
  let base :=
    if md ≠ [] then
      cols.foldl
        (fun acc col =>
          if is_manual_field col then
            match md.find? (fun kv => strContains col kv.1 || strContains kv.1 col) with
            | some kv => alSet acc col kv.2
            | none => acc
          else acc)
        base
    else base
  let base :=
    cols.foldl
      (fun acc col =>
        if is_manual_field col then acc else alSet acc col (fillFieldValue wb col))
      base
  match findDateCol cols with
  | some c => if alGet base c ≠ some (.str date) then alSet base c (.str date) else base
  | none => base

/-- The row/date match of `add_daily_data` (excel_handler.py line 355):
`df["акк/дата"].astype(str).str.contains(date.split('.')[0])` — the day
token of the date occurs as a substring of the row's date cell rendered as
a string (the token is all digits, so the regex is a literal). -/
def rowMatches (r : Row) (date : String) : Bool :=
  strContains (cellStr (alGetD r "акк/дата" .blank)) (dayToken date)

/-- Replace the element at index `i` (`df.at`-style in-place update). -/
def modifyAt {α : Type} : List α → Nat → (α → α) → List α
  | [], _, _ => []
  | x :: xs, 0, f => f x :: xs
  | x :: xs, n + 1, f => x :: modifyAt xs n f

/-- Index of the first list element satisfying `p`. -/
def findIdxA (p : Row → Bool) : List Row → Option Nat
  | [] => none
  | r :: rs => if p r then some 0 else (findIdxA p rs).map (· + 1)

/-- Index of the first matching row, `date_mask.idxmax()`
(excel_handler.py lines 355-358). -/
def matchIdx (t : Table) (date : String) : Option Nat :=
  findIdxA (fun r => rowMatches r date) t.rows

/-- Number of rows matching the date. -/
def countMatching (t : Table) (date : String) : Nat :=
  (t.rows.filter (fun r => rowMatches r date)).length

/-- `ExcelHandler.add_daily_data` (excel_handler.py lines 329-419): update
the first row whose date cell contains the date's day token, else append a
freshly built row; then `write_data` persists the frame (identity here). -/
def add_daily_data (t : Table) (date : String) (wb : Row) (md : Row) : Table :=
  match matchIdx t date with
  | some i => { t with rows := modifyAt t.rows i (fun r => mergeRow t.cols r wb md) }
  | none => { t with rows := t.rows ++ [buildNewRow t.cols date wb md] }

/-- The `pandas` elementwise `df["акк/дата"] == date` test of `update_row`:
only a string cell equal to the date matches (`NaN` and numbers never equal
a string). -/
def cellEqStr (c : Option Cell) (s : String) : Bool :=
  match c with
  | some (.str v) => v = s
  | _ => false

/-- The update application of `update_row` (excel_handler.py lines 568-570):
each update whose key is an existing column is written to the matching
rows; unknown keys are ignored. -/
def applyUpdates (cols : List String) (r : Row) (updates : Row) : Row :=
  updates.foldl (fun acc kv => if kv.1 ∈ cols then alSet acc kv.1 kv.2 else acc) r

/-- `ExcelHandler.update_row` (excel_handler.py lines 557-573): exact
equality match on the date column; if no row matches, raise `ValueError`
without calling `write_data` (the table is unchanged — `Except.error`). -/
def update_row (t : Table) (date : String) (updates : Row) : Except String Table :=
  if t.rows.any (fun r => cellEqStr (alGet r "акк/дата") date) then
    let rows' :=
      t.rows.map (fun r =>
        if cellEqStr (alGet r "акк/дата") date then applyUpdates t.cols r updates else r)
    .ok { t with rows := rows' }
  else .error ("Строка с датой " ++ date ++ " не найдена")

/-! ## Specification-side quantities

These restate, directly as filters/sums over the raw records, the per-date
quantities the spec sentences talk about; the fold lemmas below connect
them to the grouping loops. -/

/-- Sum of `totalPrice` over all sales records normalizing to date `D`. -/
def specRevenue (sales : List Sale) (D : String) : ℚ :=
  ((sales.filter (fun s => normSaleDate s.date == some D)).map Sale.totalPrice).sum

/-- Sum of `totalPrice` over the `isRealization` sales records of date `D`
(the quantity the spec claims the revenue total equals). -/
def specRealizRevenue (sales : List Sale) (D : String) : ℚ :=
  ((sales.filter (fun s => normSaleDate s.date == some D && s.isRealization)).map
    Sale.totalPrice).sum

/-- Count of `isRealization` sales records of date `D` (the order-count
fallback). -/
def specRealizCount (sales : List Sale) (D : String) : Nat :=
  (sales.filter (fun s => normSaleDate s.date == some D && s.isRealization)).length

/-- The date's distinct article ids, in first-occurrence order. -/
def specArticles (sales : List Sale) (D : String) : List Int :=
  (sales.filter (fun s => normSaleDate s.date == some D)).foldl
    (fun l s => if s.nmId ∈ l then l else l ++ [s.nmId]) []

/-- Count of non-cancelled order records (with a parseable date) of date
`D`. -/
def specOrdCount (orders : List OrderRec) (D : String) : Nat :=
  (orders.filter (fun o => normSaleDate o.date == some D && !o.isCancel)).length

/-- Summed funnel `orderCount` over the funnel records grouped under `D`. -/
def specFunOrders (funnels : List FunRec) (D : String) : ℚ :=
  ((funnels.filter
      (fun f => (if f.date = "" then none else normYMD f.date) == some D)).map
    (fun f => orQ f.orderCount 0)).sum

/-- Summed advert clicks over the advert records grouped under `D`. -/
def specAdvClicks (adverts : List AdvRec) (D : String) : ℚ :=
  ((adverts.filter (fun a => advDateKey a == some D)).map
    (fun a => orQ a.clicks 0)).sum

/-- Summed advert impressions over the advert records grouped under `D`. -/
def specAdvImpr (adverts : List AdvRec) (D : String) : ℚ :=
  ((adverts.filter (fun a => advDateKey a == some D)).map
    (fun a => orQ a.impressions 0)).sum

/-! ## Fold lemmas for the grouping loops -/

theorem salesFold_total_price (sales : List Sale) :
    ∀ (acc g : List (String × DayBucket)),
      List.foldlM salesStep acc sales = some g → ∀ D,
      (alGetD g D emptyBucket).total_price
        = (alGetD acc D emptyBucket).total_price + specRevenue sales D := by
  induction sales with
  | nil =>
    intro acc g h D
    simp only [List.foldlM_nil, pure, Option.some.injEq] at h
    subst h
    simp [specRevenue]
  | cons s ss ih =>
    intro acc g h D
    rw [List.foldlM_cons] at h
    cases hs : salesStep acc s with
    | none => rw [hs] at h; simp at h
    | some a' =>
      rw [hs] at h
      replace h : List.foldlM salesStep a' ss = some g := h
      have ihg := ih a' g h D
      unfold salesStep at hs
      cases hd : normSaleDate s.date with
      | none => rw [hd] at hs; simp at hs
      | some d =>
        rw [hd] at hs
        simp only [Option.some.injEq] at hs
        by_cases hdD : D = d
        · subst hdD
          have : (alGetD a' D emptyBucket).total_price
              = (alGetD acc D emptyBucket).total_price + s.totalPrice := by
            rw [← hs]
            simp [alGetD, alGet_alSet]
          rw [ihg, this]
          have hpred : (normSaleDate s.date == some D) = true := by
            rw [hd]; simp
          simp [specRevenue, List.filter_cons, hpred]
          ring
        · have : (alGetD a' D emptyBucket) = (alGetD acc D emptyBucket) := by
            rw [← hs]
            simp [alGetD, alGet_alSet, hdD]
          rw [ihg, this]
          have hpred : (normSaleDate s.date == some D) = false := by
            rw [hd]; simp; exact fun hh => hdD hh.symm
          simp [specRevenue, List.filter_cons, hpred]

theorem salesFold_total_quantity (sales : List Sale) :
    ∀ (acc g : List (String × DayBucket)),
      List.foldlM salesStep acc sales = some g → ∀ D,
      (alGetD g D emptyBucket).total_quantity
        = (alGetD acc D emptyBucket).total_quantity + specRealizCount sales D := by
  induction sales with
  | nil =>
    intro acc g h D
    simp only [List.foldlM_nil, pure, Option.some.injEq] at h
    subst h
    simp [specRealizCount]
  | cons s ss ih =>
    intro acc g h D
    rw [List.foldlM_cons] at h
    cases hs : salesStep acc s with
    | none => rw [hs] at h; simp at h
    | some a' =>
      rw [hs] at h
      replace h : List.foldlM salesStep a' ss = some g := h
      have ihg := ih a' g h D
      unfold salesStep at hs
      cases hd : normSaleDate s.date with
      | none => rw [hd] at hs; simp at hs
      | some d =>
        rw [hd] at hs
        simp only [Option.some.injEq] at hs
        by_cases hdD : D = d
        · subst hdD
          have hv : (alGetD a' D emptyBucket).total_quantity
              = (alGetD acc D emptyBucket).total_quantity
                + (if s.isRealization then 1 else 0) := by
            rw [← hs]
            simp [alGetD, alGet_alSet]
          rw [ihg, hv]
          have hpred : (normSaleDate s.date == some D) = true := by rw [hd]; simp
          by_cases hreal : s.isRealization = true
          · simp [specRealizCount, List.filter_cons, hpred, hreal]; omega
          · simp [specRealizCount, List.filter_cons, hpred, hreal]
        · have hv : (alGetD a' D emptyBucket) = (alGetD acc D emptyBucket) := by
            rw [← hs]
            simp [alGetD, alGet_alSet, hdD]
          rw [ihg, hv]
          have hpred : (normSaleDate s.date == some D) = false := by
            rw [hd]; simp; exact fun hh => hdD hh.symm
          simp [specRealizCount, List.filter_cons, hpred]

theorem salesFold_articles (sales : List Sale) :
    ∀ (acc g : List (String × DayBucket)),
      List.foldlM salesStep acc sales = some g → ∀ D,
      (alGetD g D emptyBucket).articles
        = (sales.filter (fun s => normSaleDate s.date == some D)).foldl
            (fun l s => if s.nmId ∈ l then l else l ++ [s.nmId])
            (alGetD acc D emptyBucket).articles := by
  induction sales with
  | nil =>
    intro acc g h D
    simp only [List.foldlM_nil, pure, Option.some.injEq] at h
    subst h
    simp
  | cons s ss ih =>
    intro acc g h D
    rw [List.foldlM_cons] at h
    cases hs : salesStep acc s with
    | none => rw [hs] at h; simp at h
    | some a' =>
      rw [hs] at h
      replace h : List.foldlM salesStep a' ss = some g := h
      have ihg := ih a' g h D
      unfold salesStep at hs
      cases hd : normSaleDate s.date with
      | none => rw [hd] at hs; simp at hs
      | some d =>
        rw [hd] at hs
        simp only [Option.some.injEq] at hs
        by_cases hdD : D = d
        · subst hdD
          have hv : (alGetD a' D emptyBucket).articles
              = (if s.nmId ∈ (alGetD acc D emptyBucket).articles
                 then (alGetD acc D emptyBucket).articles
                 else (alGetD acc D emptyBucket).articles ++ [s.nmId]) := by
            rw [← hs]
            simp [alGetD, alGet_alSet]
          rw [ihg, hv]
          have hpred : (normSaleDate s.date == some D) = true := by rw [hd]; simp
          simp [List.filter_cons, hpred]
        · have hv : (alGetD a' D emptyBucket) = (alGetD acc D emptyBucket) := by
            rw [← hs]
            simp [alGetD, alGet_alSet, hdD]
          rw [ihg, hv]
          have hpred : (normSaleDate s.date == some D) = false := by
            rw [hd]; simp; exact fun hh => hdD hh.symm
          simp [List.filter_cons, hpred]

theorem ordersFold_count (orders : List OrderRec) :
    ∀ (acc : List (String × OrdBucket)) (D : String),
      (alGetD (List.foldl ordersStep acc orders) D ⟨0, 0⟩).count
        = (alGetD acc D ⟨0, 0⟩).count + specOrdCount orders D := by
  induction orders with
  | nil => intro acc D; simp [specOrdCount]
  | cons o os ih =>
    intro acc D
    rw [List.foldl_cons]
    rw [ih (ordersStep acc o) D]
    cases hd : normSaleDate o.date with
    | none => simp [ordersStep, hd, specOrdCount, List.filter_cons]
    | some d =>
      cases hc : o.isCancel with
      | true => simp [ordersStep, hd, hc, specOrdCount, List.filter_cons]
      | false =>
        by_cases hdD : D = d
        · subst hdD
          simp [ordersStep, hd, hc, specOrdCount, List.filter_cons, alGetD, alGet_alSet]
          omega
        · simp [ordersStep, hd, hc, specOrdCount, List.filter_cons, alGetD,
            alGet_alSet, hdD, Ne.symm hdD]

theorem ordersFold_mem (orders : List OrderRec) :
    ∀ (acc : List (String × OrdBucket)) (D : String),
      (alGet (List.foldl ordersStep acc orders) D).isSome = true →
      (alGet acc D).isSome = true ∨ 0 < specOrdCount orders D := by
  induction orders with
  | nil => intro acc D h; left; simpa using h
  | cons o os ih =>
    intro acc D h
    rw [List.foldl_cons] at h
    have hmono : specOrdCount os D ≤ specOrdCount (o :: os) D := by
      simp only [specOrdCount, List.filter_cons]
      split
      · simp [Nat.le_succ]
      · exact le_refl _
    rcases ih (ordersStep acc o) D h with h1 | h1
    · cases hd : normSaleDate o.date with
      | none => simp only [ordersStep, hd] at h1; exact Or.inl h1
      | some d =>
        cases hc : o.isCancel with
        | true => simp only [ordersStep, hd, hc, if_pos] at h1; exact Or.inl h1
        | false =>
          simp only [ordersStep, hd, hc] at h1
          by_cases hdD : D = d
          · subst hdD
            right
            simp [specOrdCount, List.filter_cons, hd, hc]
          · left
            rw [if_neg (by simp)] at h1
            rwa [alGet_alSet_ne _ _ _ _ hdD] at h1
    · right; omega

theorem funFold_orders (funnels : List FunRec) :
    ∀ (acc : List (String × FunBucket)) (D : String),
      (alGetD (List.foldl funStep acc funnels) D ⟨0, 0, 0⟩).orders
        = (alGetD acc D ⟨0, 0, 0⟩).orders + specFunOrders funnels D := by
  induction funnels with
  | nil => intro acc D; simp [specFunOrders]
  | cons f fs ih =>
    intro acc D
    rw [List.foldl_cons, ih (funStep acc f) D]
    unfold funStep
    by_cases he : f.date = ""
    · have hpred : ((if f.date = "" then none else normYMD f.date) == some D) = false := by
        simp [he]
      simp [he, specFunOrders, List.filter_cons, hpred]
    · cases hd : normYMD f.date with
      | none =>
        have hpred : ((if f.date = "" then none else normYMD f.date) == some D) = false := by
          simp [he, hd]
        simp [he, hd, specFunOrders, List.filter_cons, hpred]
      | some d =>
        by_cases hdD : D = d
        · subst hdD
          have hpred : ((if f.date = "" then none else normYMD f.date) == some D) = true := by
            simp [he, hd]
          simp [he, hd, specFunOrders, List.filter_cons, hpred, alGetD, alGet_alSet]
          ring
        · simp [he, hd, specFunOrders, List.filter_cons, alGetD, alGet_alSet, hdD,
            Ne.symm hdD]

theorem advStep_clicks (acc : List (String × AdvBucket)) (a : AdvRec) (D : String) :
    (alGetD (advStep acc a) D emptyAdvBucket).clicks
      = (alGetD acc D emptyAdvBucket).clicks
        + (if advDateKey a == some D then orQ a.clicks 0 else 0) := by
  cases hk : advDateKey a with
  | none => simp [advStep, hk]
  | some d =>
    by_cases hdD : D = d
    · subst hdD
      simp only [advStep, hk]
      simp [alGetD, alGet_alSet]
      repeat' split
      all_goals simp [alGetD]
    · simp only [advStep, hk]
      simp only [alGetD, alGet_alSet, if_neg hdD]
      simp [Ne.symm hdD]

theorem advStep_impressions (acc : List (String × AdvBucket)) (a : AdvRec) (D : String) :
    (alGetD (advStep acc a) D emptyAdvBucket).impressions
      = (alGetD acc D emptyAdvBucket).impressions
        + (if advDateKey a == some D then orQ a.impressions 0 else 0) := by
  cases hk : advDateKey a with
  | none => simp [advStep, hk]
  | some d =>
    by_cases hdD : D = d
    · subst hdD
      simp only [advStep, hk]
      simp [alGetD, alGet_alSet]
      repeat' split
      all_goals simp [alGetD]
    · simp only [advStep, hk]
      simp only [alGetD, alGet_alSet, if_neg hdD]
      simp [Ne.symm hdD]

theorem advFold_clicks (adverts : List AdvRec) :
    ∀ (acc : List (String × AdvBucket)) (D : String),
      (alGetD (List.foldl advStep acc adverts) D emptyAdvBucket).clicks
        = (alGetD acc D emptyAdvBucket).clicks + specAdvClicks adverts D := by
  induction adverts with
  | nil => intro acc D; simp [specAdvClicks]
  | cons a as ih =>
    intro acc D
    rw [List.foldl_cons, ih (advStep acc a) D, advStep_clicks]
    cases hk : (advDateKey a == some D) with
    | true => simp [specAdvClicks, List.filter_cons, hk]; ring
    | false => simp [specAdvClicks, List.filter_cons, hk]

theorem advFold_impressions (adverts : List AdvRec) :
    ∀ (acc : List (String × AdvBucket)) (D : String),
      (alGetD (List.foldl advStep acc adverts) D emptyAdvBucket).impressions
        = (alGetD acc D emptyAdvBucket).impressions + specAdvImpr adverts D := by
  induction adverts with
  | nil => intro acc D; simp [specAdvImpr]
  | cons a as ih =>
    intro acc D
    rw [List.foldl_cons, ih (advStep acc a) D, advStep_impressions]
    cases hk : (advDateKey a == some D) with
    | true => simp [specAdvImpr, List.filter_cons, hk]; ring
    | false => simp [specAdvImpr, List.filter_cons, hk]

/-! ## Extraction lemmas for the `wb_row_data` construction -/

theorem ordSection_get_ne (r : Row) (o : List OrderRec) (b : DayBucket) (d k : String)
    (h : k ≠ "заказы") : alGet (ordSection r o b d) k = alGet r k := by
  unfold ordSection
  split <;> simp [alGet_alSet, h]

theorem ordSection_zakazy_some (r : Row) (o : List OrderRec) (b : DayBucket) (d : String)
    (ob : OrdBucket) (h : alGet (ordersByDate o) d = some ob) :
    alGet (ordSection r o b d) "заказы" = some (.num ob.count) := by
  unfold ordSection
  rw [h]
  simp [alGet_alSet]

theorem ordSection_zakazy_none (r : Row) (o : List OrderRec) (b : DayBucket) (d : String)
    (h : alGet (ordersByDate o) d = none) :
    alGet (ordSection r o b d) "заказы" = some (.num b.total_quantity) := by
  unfold ordSection
  rw [h]
  simp [alGet_alSet]

theorem priceSection_get_ne (r : Row) (b : DayBucket) (k : String)
    (h : k ≠ "ЦЕНА товара") : alGet (priceSection r b) k = alGet r k := by
  unfold priceSection
  split <;> simp [alGet_alSet, h]

theorem stockSection_get_ne (r : Row) (st : List StockRec) (b : DayBucket) (k : String)
    (h1 : k ≠ "остаток товара на складе") (h2 : k ≠ "хран день") :
    alGet (stockSection r st b) k = alGet r k := by
  simp only [stockSection]
  split_ifs with h <;> simp [alGet_alSet, h1, h2]

theorem stockSection_khran (r : Row) (st : List StockRec) (b : DayBucket) :
    alGet (stockSection r st b) "хран день"
      = if 0 < totalStockFor st b.articles then
          some (.num (round2 (totalStockFor st b.articles * (15 / 100))))
        else alGet r "хран день" := by
  simp only [stockSection]
  split_ifs with h <;> simp [alGet_alSet, h]

theorem stockSection_ostatok (r : Row) (st : List StockRec) (b : DayBucket) :
    alGet (stockSection r st b) "остаток товара на складе"
      = if 0 < totalStockFor st b.articles then
          some (.num (totalStockFor st b.articles))
        else alGet r "остаток товара на складе" := by
  simp only [stockSection]
  split_ifs with h <;> simp [alGet_alSet, h]

theorem advApply_get_ne (r : Row) (a : List AdvRec) (d k : String)
    (hk : k ∉ (["показы", "клики", "CTR", "цена клика АУКЦ", "цена клика АРК",
      "цена клика", "расход АУКЦ", "расход АРК"] : List String)) :
    alGet (advApply r a d) k = alGet r k := by
  simp only [List.mem_cons, List.not_mem_nil, or_false, not_or] at hk
  obtain ⟨h1, h2, h3, h4, h5, h6, h7, h8⟩ := hk
  unfold advApply
  cases alGet (advertByDate a) d with
  | none => rfl
  | some adv =>
    unfold advSection
    repeat' split
    all_goals simp [alGet_alSet, h1, h2, h3, h4, h5, h6, h7, h8]

theorem advApply_ctr (r : Row) (a : List AdvRec) (d : String) :
    alGet (advApply r a d) "CTR"
      = (match alGet (advertByDate a) d with
         | some adv =>
           if 0 < adv.clicks ∧ 0 < adv.impressions then
             some (.num (adv.clicks / adv.impressions * 100))
           else alGet r "CTR"
         | none => alGet r "CTR") := by
  unfold advApply
  cases alGet (advertByDate a) d with
  | none => rfl
  | some adv =>
    unfold advSection
    repeat' split
    all_goals simp_all [alGet_alSet]

theorem funApply_get_ne (r : Row) (f : List FunRec) (d k : String)
    (h1 : k ≠ "перешли в карточку") (h2 : k ≠ "корзин") (h3 : k ≠ "заказы") :
    alGet (funApply r f d) k = alGet r k := by
  unfold funApply
  split
  · split_ifs with ho <;> simp [alGet_alSet, h1, h2, h3]
  · rfl

theorem funApply_zakazy (r : Row) (f : List FunRec) (d : String) :
    alGet (funApply r f d) "заказы"
      = (match alGet (funnelByDate f) d with
         | some fb =>
           if 0 < fb.orders then some (.num fb.orders) else alGet r "заказы"
         | none => alGet r "заказы") := by
  unfold funApply
  split
  · split_ifs with ho <;> simp [alGet_alSet, ho]
  · rfl

theorem buildCore_kassa (b : DayBucket) (st : List StockRec) (o : List OrderRec)
    (a : List AdvRec) (f : List FunRec) (d : String) :
    alGet (buildCore b st o a f d) "Касса день" = some (.num b.total_price) := by
  unfold buildCore
  rw [funApply_get_ne _ _ _ _ (by decide) (by decide) (by decide)]
  rw [advApply_get_ne _ _ _ _ (by decide)]
  rw [stockSection_get_ne _ _ _ _ (by decide) (by decide)]
  rw [priceSection_get_ne _ _ _ (by decide)]
  rw [ordSection_get_ne _ _ _ _ _ (by decide)]
  simp [baseRow, alGet]

theorem buildWbRow_elim (g : List (String × DayBucket)) (st : List StockRec)
    (o : List OrderRec) (a : List AdvRec) (f : List FunRec) (d : String) (row : Row)
    (h : buildWbRow g st o a f d = some row) :
    ∃ b, alGet g d = some b ∧ row = buildCore b st o a f d := by
  unfold buildWbRow at h
  cases hb : alGet g d with
  | none => rw [hb] at h; simp at h
  | some b =>
    rw [hb] at h
    simp only [Option.map, Option.some.injEq] at h
    exact ⟨b, rfl, h.symm⟩

/-! ## C1 — the daily revenue total -/

/-- C1 (amended): for every sales list whose dates all parse and every date
`D` with a row, the value written to the `Касса день` column equals the sum
of `totalPrice` over **all** sales records whose normalized date is `D`
(regardless of `isRealization`); records on other dates contribute
nothing.  (bot.py line 160 accumulates `totalPrice` unconditionally; only
the quantity counter is gated on `isRealization`.) -/
theorem kassa_den_sums_all_sales (sales : List Sale) (stocks : List StockRec)
    (orders : List OrderRec) (adverts : List AdvRec) (funnels : List FunRec)
    (d : String) (g : List (String × DayBucket)) (row : Row)
    (hg : dataByDate sales = some g)
    (hrow : buildWbRow g stocks orders adverts funnels d = some row) :
    alGet row "Касса день" = some (.num (specRevenue sales d)) := by
  obtain ⟨b, hb, hrc⟩ := buildWbRow_elim _ _ _ _ _ _ _ hrow
  subst hrc
  rw [buildCore_kassa]
  have h2 := salesFold_total_price sales [] g hg d
  simp only [alGetD, hb, Option.getD_some, alGet, emptyBucket] at h2
  rw [h2]
  norm_num

/-- A sales record that is **not** a realization but still carries a
positive `totalPrice`. -/
def cexSale : Sale :=
  { date := "2024-01-05", nmId := 100, priceWithDisc := 500, totalPrice := 500,
    isRealization := false }

/-- The bucket produced by `cexSale` alone. -/
def cexBucket : DayBucket :=
  { sales := [cexSale]
    total_price := 500
    total_quantity := 0
    articles := [100] }

/-- The sales grouping produced by `cexSale` alone. -/
def cexG : List (String × DayBucket) := [("05.01.2024", cexBucket)]

/-- C1 counterexample: with the single non-realization sale `cexSale` on
05.01.2024, the code writes 500 to `Касса день`, while the sum of
`totalPrice` over `isRealization` records of that date is 0 — so the claim
as stated (revenue = realization-only sum) is false on the code. -/
theorem kassa_den_counterexample :
    dataByDate [cexSale] = some cexG
    ∧ ((buildWbRow cexG [] [] [] [] "05.01.2024").map (fun r => alGet r "Касса день"))
        = some (some (.num 500))
    ∧ specRealizRevenue [cexSale] "05.01.2024" = 0
    ∧ Cell.num 500 ≠ Cell.num 0 := by
  have hnorm : normSaleDate "2024-01-05" = some "05.01.2024" := by decide
  refine ⟨?_, ?_, ?_, ?_⟩
  · simp [dataByDate, salesStep, cexSale, hnorm, alGetD, alGet, alSet, emptyBucket,
      cexG, cexBucket]
  · have hb : alGet cexG "05.01.2024" = some cexBucket := by
      simp [cexG, alGet]
    simp [buildWbRow, hb, buildCore_kassa, cexBucket]
  · simp [specRealizRevenue, cexSale, hnorm]
  · simp

/-- A realization sale with an ISO timestamp date. -/
def exSale : Sale :=
  { date := "2024-01-05T10:11:12", nmId := 100, priceWithDisc := 500, totalPrice := 500,
    isRealization := true }

/-- The bucket produced by `exSale` alone. -/
def exBucket : DayBucket :=
  { sales := [exSale]
    total_price := 500
    total_quantity := 1
    articles := [100] }

/-- The sales grouping produced by `exSale` alone. -/
def exG : List (String × DayBucket) := [("05.01.2024", exBucket)]

/-- The `wb_row_data` row built from `exBucket` with no other data. -/
def exRow : Row := buildCore exBucket [] [] [] [] "05.01.2024"

theorem kassa_den_sums_all_sales_witness :
    dataByDate [exSale] = some exG
    ∧ buildWbRow exG [] [] [] [] "05.01.2024" = some exRow
    ∧ alGet exRow "Касса день" = some (.num (specRevenue [exSale] "05.01.2024")) := by
  have hnorm : normSaleDate "2024-01-05T10:11:12" = some "05.01.2024" := by decide
  have hg : dataByDate [exSale] = some exG := by
    simp [dataByDate, salesStep, exSale, hnorm, alGetD, alGet, alSet, emptyBucket,
      exG, exBucket]
  have hrow : buildWbRow exG [] [] [] [] "05.01.2024" = some exRow := by
    have hb : alGet exG "05.01.2024" = some exBucket := by simp [exG, exBucket, alGet]
    simp [buildWbRow, hb, exRow]
  exact ⟨hg, hrow,
    kassa_den_sums_all_sales [exSale] [] [] [] [] "05.01.2024" exG exRow hg hrow⟩

theorem funApply_zakazy_some (r : Row) (f : List FunRec) (d : String) (fb : FunBucket)
    (hf : alGet (funnelByDate f) d = some fb) :
    alGet (funApply r f d) "заказы"
      = if 0 < fb.orders then some (.num fb.orders) else alGet r "заказы" := by
  unfold funApply
  rw [hf]
  by_cases h : 0 < fb.orders <;> simp [alGet_alSet, h]

theorem funApply_zakazy_none (r : Row) (f : List FunRec) (d : String)
    (hf : alGet (funnelByDate f) d = none) :
    alGet (funApply r f d) "заказы" = alGet r "заказы" := by
  unfold funApply
  rw [hf]

/-! ## C4 — the order-count precedence -/

/-- C4: the value written to the `заказы` column obeys the fixed precedence:
a positive funnel order count wins; otherwise, when at least one
non-cancelled order record exists for the date, their count is used;
otherwise the count of `isRealization` sales records. -/
theorem zakazy_precedence (sales : List Sale) (stocks : List StockRec)
    (orders : List OrderRec) (adverts : List AdvRec) (funnels : List FunRec)
    (d : String) (g : List (String × DayBucket)) (row : Row)
    (hg : dataByDate sales = some g)
    (hrow : buildWbRow g stocks orders adverts funnels d = some row) :
    alGet row "заказы" = some (.num (
      if 0 < specFunOrders funnels d then specFunOrders funnels d
      else if 0 < specOrdCount orders d then (specOrdCount orders d : ℚ)
      else (specRealizCount sales d : ℚ))) := by
  obtain ⟨b, hb, hrc⟩ := buildWbRow_elim _ _ _ _ _ _ _ hrow
  subst hrc
  have hbq : (b.total_quantity : ℚ) = (specRealizCount sales d : ℚ) := by
    have h2 := salesFold_total_quantity sales [] g hg d
    simp only [alGetD, hb, Option.getD_some, alGet, emptyBucket] at h2
    rw [h2]
    norm_num
  have hfun : (alGetD (funnelByDate funnels) d ⟨0, 0, 0⟩).orders
      = specFunOrders funnels d := by
    simpa [funnelByDate, alGetD, alGet] using funFold_orders funnels [] d
  have hcnt : (alGetD (ordersByDate orders) d ⟨0, 0⟩).count
      = specOrdCount orders d := by
    simpa [ordersByDate, alGetD, alGet] using ordersFold_count orders [] d
  -- the inner (orders / sales fallback) value of the `заказы` cell
  have hordval : alGet (ordSection (baseRow b) orders b d) "заказы"
      = some (.num (if 0 < specOrdCount orders d then (specOrdCount orders d : ℚ)
          else (specRealizCount sales d : ℚ))) := by
    cases ho : alGet (ordersByDate orders) d with
    | some ob =>
      rw [ordSection_zakazy_some _ _ _ _ _ ho]
      have hc : ob.count = specOrdCount orders d := by
        simpa [alGetD, ho] using hcnt
      have hpos : 0 < specOrdCount orders d := by
        have ho' : alGet (List.foldl ordersStep [] orders) d = some ob := ho
        rcases ordersFold_mem orders [] d (by rw [ho']; rfl) with h1 | h1
        · simp [alGet] at h1
        · exact h1
      rw [if_pos hpos, hc]
    | none =>
      rw [ordSection_zakazy_none _ _ _ _ ho]
      have hz : specOrdCount orders d = 0 := by
        have := hcnt
        simp only [alGetD, ho, Option.getD_none] at this
        exact this.symm
      rw [hz]
      simp [hbq]
  unfold buildCore
  cases hf : alGet (funnelByDate funnels) d with
  | some fb =>
    have hof : fb.orders = specFunOrders funnels d := by
      simpa [alGetD, hf] using hfun
    rw [funApply_zakazy_some _ _ _ _ hf]
    by_cases hpos : 0 < fb.orders
    · rw [if_pos hpos, if_pos (hof ▸ hpos), hof]
    · rw [if_neg hpos, if_neg (hof ▸ hpos)]
      rw [advApply_get_ne _ _ _ _ (by decide)]
      rw [stockSection_get_ne _ _ _ _ (by decide) (by decide)]
      rw [priceSection_get_ne _ _ _ (by decide)]
      exact hordval
  | none =>
    have hz : specFunOrders funnels d = 0 := by
      have := hfun
      simp only [alGetD, hf, Option.getD_none] at this
      exact this.symm
    rw [funApply_zakazy_none _ _ _ hf, hz]
    rw [if_neg (by norm_num)]
    rw [advApply_get_ne _ _ _ _ (by decide)]
    rw [stockSection_get_ne _ _ _ _ (by decide) (by decide)]
    rw [priceSection_get_ne _ _ _ (by decide)]
    exact hordval

theorem exG_eval : dataByDate [exSale] = some exG := by
  have hnorm : normSaleDate "2024-01-05T10:11:12" = some "05.01.2024" := by decide
  simp [dataByDate, salesStep, exSale, hnorm, alGetD, alGet, alSet, emptyBucket,
    exG, exBucket]

theorem exRow_eval : buildWbRow exG [] [] [] [] "05.01.2024" = some exRow := by
  have hb : alGet exG "05.01.2024" = some exBucket := by simp [exG, alGet]
  simp [buildWbRow, hb, exRow]

theorem zakazy_precedence_witness :
    dataByDate [exSale] = some exG
    ∧ buildWbRow exG [] [] [] [] "05.01.2024" = some exRow
    ∧ alGet exRow "заказы" = some (.num (
        if 0 < specFunOrders [] "05.01.2024" then specFunOrders [] "05.01.2024"
        else if 0 < specOrdCount [] "05.01.2024" then
          (specOrdCount [] "05.01.2024" : ℚ)
        else (specRealizCount [exSale] "05.01.2024" : ℚ))) :=
  ⟨exG_eval, exRow_eval,
    zakazy_precedence [exSale] [] [] [] [] "05.01.2024" exG exRow exG_eval exRow_eval⟩

/-! ## C5 — CTR presence and value -/

theorem advApply_ctr_some (r : Row) (a : List AdvRec) (d : String) (adv : AdvBucket)
    (ha : alGet (advertByDate a) d = some adv) :
    alGet (advApply r a d) "CTR"
      = if 0 < adv.clicks ∧ 0 < adv.impressions then
          some (.num (adv.clicks / adv.impressions * 100))
        else alGet r "CTR" := by
  have hred : advApply r a d = advSection r adv := by
    unfold advApply
    rw [ha]
  rw [hred]
  simp only [advSection]
  by_cases hc : 0 < adv.clicks ∧ 0 < adv.impressions
  · simp only [if_pos hc]
    split_ifs <;> simp [alGet_alSet]
  · simp only [if_neg hc]
    split_ifs <;> simp [alGet_alSet]

theorem advApply_ctr_none (r : Row) (a : List AdvRec) (d : String)
    (ha : alGet (advertByDate a) d = none) :
    alGet (advApply r a d) "CTR" = alGet r "CTR" := by
  unfold advApply
  rw [ha]

/-- C5: the CTR field is present iff both the summed clicks and the summed
impressions of the date are positive, and then equals
`100 * clicks / impressions`; otherwise it is absent. -/
theorem ctr_presence (sales : List Sale) (stocks : List StockRec)
    (orders : List OrderRec) (adverts : List AdvRec) (funnels : List FunRec)
    (d : String) (g : List (String × DayBucket)) (row : Row)
    (hg : dataByDate sales = some g)
    (hrow : buildWbRow g stocks orders adverts funnels d = some row) :
    alGet row "CTR"
      = if 0 < specAdvClicks adverts d ∧ 0 < specAdvImpr adverts d then
          some (.num (100 * specAdvClicks adverts d / specAdvImpr adverts d))
        else none := by
  obtain ⟨b, hb, hrc⟩ := buildWbRow_elim _ _ _ _ _ _ _ hrow
  subst hrc
  have hcl : (alGetD (advertByDate adverts) d emptyAdvBucket).clicks
      = specAdvClicks adverts d := by
    simpa [advertByDate, alGetD, alGet, emptyAdvBucket] using advFold_clicks adverts [] d
  have him : (alGetD (advertByDate adverts) d emptyAdvBucket).impressions
      = specAdvImpr adverts d := by
    simpa [advertByDate, alGetD, alGet, emptyAdvBucket] using advFold_impressions adverts [] d
  have hbase : alGet (stockSection (priceSection (ordSection (baseRow b) orders b d) b)
      stocks b) "CTR" = none := by
    rw [stockSection_get_ne _ _ _ _ (by decide) (by decide)]
    rw [priceSection_get_ne _ _ _ (by decide)]
    rw [ordSection_get_ne _ _ _ _ _ (by decide)]
    simp [baseRow, alGet]
  unfold buildCore
  rw [funApply_get_ne _ _ _ _ (by decide) (by decide) (by decide)]
  cases ha : alGet (advertByDate adverts) d with
  | none =>
    have h0 : specAdvClicks adverts d = 0 := by
      have := hcl
      simp only [alGetD, ha, Option.getD_none, emptyAdvBucket] at this
      exact this.symm
    rw [advApply_ctr_none _ _ _ ha, hbase]
    rw [if_neg (by simp [h0])]
  | some adv =>
    rw [advApply_ctr_some _ _ _ _ ha]
    have hc : adv.clicks = specAdvClicks adverts d := by
      simpa [alGetD, ha] using hcl
    have hi : adv.impressions = specAdvImpr adverts d := by
      simpa [alGetD, ha] using him
    rw [hc, hi, hbase]
    split_ifs with h
    · congr 2
      ring
    · rfl

/-- An advert record on the example date. -/
def exAdv : AdvRec :=
  { date := "2024-01-05", impressions := 1000, clicks := 50, sum := 100, cost := 0,
    cpc := 0 }

/-- The `wb_row_data` row built from `exBucket` and the advert record. -/
def exRowA : Row := buildCore exBucket [] [] [exAdv] [] "05.01.2024"

theorem exRowA_eval : buildWbRow exG [] [] [exAdv] [] "05.01.2024" = some exRowA := by
  have hb : alGet exG "05.01.2024" = some exBucket := by simp [exG, alGet]
  simp [buildWbRow, hb, exRowA]

theorem ctr_presence_witness :
    dataByDate [exSale] = some exG
    ∧ buildWbRow exG [] [] [exAdv] [] "05.01.2024" = some exRowA
    ∧ alGet exRowA "CTR"
      = (if 0 < specAdvClicks [exAdv] "05.01.2024"
            ∧ 0 < specAdvImpr [exAdv] "05.01.2024" then
          some (.num (100 * specAdvClicks [exAdv] "05.01.2024"
            / specAdvImpr [exAdv] "05.01.2024"))
        else none) :=
  ⟨exG_eval, exRowA_eval,
    ctr_presence [exSale] [] [] [exAdv] [] "05.01.2024" exG exRowA exG_eval exRowA_eval⟩

/-! ## C9 — stock remainder and the storage heuristic -/

/-- C9: `хран день` is present iff the total stock over the date's distinct
sale articles is positive, and then equals `round(total * 0.15, 2)`; the
stock-remainder column is present under the same condition with the total
itself; otherwise both are absent. -/
theorem khran_den (sales : List Sale) (stocks : List StockRec)
    (orders : List OrderRec) (adverts : List AdvRec) (funnels : List FunRec)
    (d : String) (g : List (String × DayBucket)) (row : Row)
    (hg : dataByDate sales = some g)
    (hrow : buildWbRow g stocks orders adverts funnels d = some row) :
    (alGet row "хран день"
       = if 0 < totalStockFor stocks (specArticles sales d) then
           some (.num (round2 (totalStockFor stocks (specArticles sales d) * (15 / 100))))
         else none)
    ∧ (alGet row "остаток товара на складе"
       = if 0 < totalStockFor stocks (specArticles sales d) then
           some (.num (totalStockFor stocks (specArticles sales d)))
         else none) := by
  obtain ⟨b, hb, hrc⟩ := buildWbRow_elim _ _ _ _ _ _ _ hrow
  subst hrc
  have hart : b.articles = specArticles sales d := by
    have h2 := salesFold_articles sales [] g hg d
    simp only [alGetD, hb, Option.getD_some, alGet, emptyBucket] at h2
    simpa [specArticles] using h2
  constructor
  · unfold buildCore
    rw [funApply_get_ne _ _ _ _ (by decide) (by decide) (by decide)]
    rw [advApply_get_ne _ _ _ _ (by decide)]
    rw [stockSection_khran, hart]
    split_ifs with h
    · rfl
    · rw [priceSection_get_ne _ _ _ (by decide)]
      rw [ordSection_get_ne _ _ _ _ _ (by decide)]
      simp [baseRow, alGet]
  · unfold buildCore
    rw [funApply_get_ne _ _ _ _ (by decide) (by decide) (by decide)]
    rw [advApply_get_ne _ _ _ _ (by decide)]
    rw [stockSection_ostatok, hart]
    split_ifs with h
    · rfl
    · rw [priceSection_get_ne _ _ _ (by decide)]
      rw [ordSection_get_ne _ _ _ _ _ (by decide)]
      simp [baseRow, alGet]

/-- A stock record for the example article. -/
def exStock : StockRec := { nmId := 100, quantity := 20, amount := 0 }

/-- The `wb_row_data` row built from `exBucket` and the stock record. -/
def exRowS : Row := buildCore exBucket [exStock] [] [] [] "05.01.2024"

theorem exRowS_eval :
    buildWbRow exG [exStock] [] [] [] "05.01.2024" = some exRowS := by
  have hb : alGet exG "05.01.2024" = some exBucket := by simp [exG, alGet]
  simp [buildWbRow, hb, exRowS]

theorem khran_den_witness :
    dataByDate [exSale] = some exG
    ∧ buildWbRow exG [exStock] [] [] [] "05.01.2024" = some exRowS
    ∧ ((alGet exRowS "хран день"
         = if 0 < totalStockFor [exStock] (specArticles [exSale] "05.01.2024") then
             some (.num (round2 (totalStockFor [exStock]
               (specArticles [exSale] "05.01.2024") * (15 / 100))))
           else none)
      ∧ (alGet exRowS "остаток товара на складе"
         = if 0 < totalStockFor [exStock] (specArticles [exSale] "05.01.2024") then
             some (.num (totalStockFor [exStock] (specArticles [exSale] "05.01.2024")))
           else none)) :=
  ⟨exG_eval, exRowS_eval,
    khran_den [exSale] [exStock] [] [] [] "05.01.2024" exG exRowS exG_eval exRowS_eval⟩

/-! ## C8 — optional-endpoint failures degrade to empty data -/

/-- C8: a failed advert or funnel fetch (any raised exception, including the
backend or client not supporting the endpoint) is replaced by the empty
record list, and the whole run computes exactly what it computes with empty
advert/funnel data — it is never aborted by these failures; in particular a
run with no sales still completes with "no row" instead of an error. -/
theorem optional_fetch_degrades (sales : List Sale) (stocks : List StockRec)
    (orders : List OrderRec) (e₁ e₂ : String) (d : String) :
    fetchOptional (α := AdvRec) (.error e₁) = []
    ∧ fetchOptional (α := FunRec) (.error e₂) = []
    ∧ parseCommandRow sales stocks orders (.error e₁) (.error e₂) d
        = parseCommandRow sales stocks orders (.ok []) (.ok []) d
    ∧ parseCommandRow [] stocks orders (.error e₁) (.error e₂) d = .ok none := by
  refine ⟨rfl, rfl, rfl, ?_⟩
  simp [parseCommandRow, dataByDate, buildWbRow, alGet, fetchOptional]

/-! ## List helper lemmas for the report store -/

theorem modifyAt_length {α : Type} (l : List α) :
    ∀ (i : Nat) (f : α → α), (modifyAt l i f).length = l.length := by
  induction l with
  | nil => intro i f; cases i <;> rfl
  | cons x xs ih =>
    intro i f
    cases i with
    | zero => rfl
    | succ n => simp [modifyAt, ih]

theorem modifyAt_get {α : Type} (l : List α) :
    ∀ (i : Nat) (f : α → α) (x : α), l[i]? = some x →
      (modifyAt l i f)[i]? = some (f x) := by
  induction l with
  | nil => intro i f x h; simp at h
  | cons y ys ih =>
    intro i f x h
    cases i with
    | zero =>
      simp at h
      subst h
      simp [modifyAt]
    | succ n =>
      simp only [modifyAt]
      simp only [List.getElem?_cons_succ] at h ⊢
      exact ih n f x h

theorem modifyAt_get_ne {α : Type} (l : List α) :
    ∀ (i j : Nat) (f : α → α), j ≠ i → (modifyAt l i f)[j]? = l[j]? := by
  induction l with
  | nil => intro i j f _; cases i <;> rfl
  | cons y ys ih =>
    intro i j f hj
    cases i with
    | zero =>
      cases j with
      | zero => exact absurd rfl hj
      | succ m => simp [modifyAt]
    | succ n =>
      cases j with
      | zero => simp [modifyAt]
      | succ m =>
        simp only [modifyAt, List.getElem?_cons_succ]
        exact ih n m f (fun hh => hj (by omega))

theorem findIdxA_lt_false (p : Row → Bool) :
    ∀ (l : List Row) (i : Nat), findIdxA p l = some i →
      ∀ (j : Nat) (r : Row), j < i → l[j]? = some r → p r = false := by
  intro l
  induction l with
  | nil => intro i h; simp [findIdxA] at h
  | cons x xs ih =>
    intro i h j r hj hr
    unfold findIdxA at h
    by_cases hp : p x
    · rw [if_pos hp] at h
      simp at h
      omega
    · rw [if_neg hp] at h
      cases hfi : findIdxA p xs with
      | none => rw [hfi] at h; simp at h
      | some i' =>
        rw [hfi] at h
        simp at h
        cases j with
        | zero =>
          simp at hr
          subst hr
          exact Bool.eq_false_iff.mpr hp
        | succ m =>
          simp only [List.getElem?_cons_succ] at hr
          exact ih i' hfi m r (by omega) hr

theorem findIdxA_get_true (p : Row → Bool) :
    ∀ (l : List Row) (i : Nat), findIdxA p l = some i →
      ∃ r, l[i]? = some r ∧ p r = true := by
  intro l
  induction l with
  | nil => intro i h; simp [findIdxA] at h
  | cons x xs ih =>
    intro i h
    unfold findIdxA at h
    by_cases hp : p x
    · rw [if_pos hp] at h
      simp at h
      subst h
      exact ⟨x, by simp, hp⟩
    · rw [if_neg hp] at h
      cases hfi : findIdxA p xs with
      | none => rw [hfi] at h; simp at h
      | some i' =>
        rw [hfi] at h
        simp at h
        subst h
        obtain ⟨r, hr, hpr⟩ := ih i' hfi
        exact ⟨r, by simpa using hr, hpr⟩

theorem findIdxA_none_iff (p : Row → Bool) :
    ∀ (l : List Row), findIdxA p l = none ↔ ∀ r ∈ l, p r = false := by
  intro l
  induction l with
  | nil => simp [findIdxA]
  | cons x xs ih =>
    unfold findIdxA
    by_cases hp : p x
    · simp [hp]
    · have hpf : p x = false := Bool.eq_false_iff.mpr hp
      simp [hp, hpf, ih, Option.map_eq_none']

theorem findIdxA_modifyAt (p : Row → Bool) (l : List Row) :
    ∀ (i : Nat) (f : Row → Row), (∀ r, p (f r) = p r) →
      findIdxA p (modifyAt l i f) = findIdxA p l := by
  induction l with
  | nil => intro i f _; cases i <;> rfl
  | cons x xs ih =>
    intro i f hf
    cases i with
    | zero => simp [modifyAt, findIdxA, hf x]
    | succ n => simp [modifyAt, findIdxA, ih n f hf]

theorem findIdxA_append_singleton (p : Row → Bool) :
    ∀ (l : List Row) (x : Row), findIdxA p l = none →
      findIdxA p (l ++ [x]) = if p x then some l.length else none := by
  intro l
  induction l with
  | nil => intro x _; simp [findIdxA]
  | cons y ys ih =>
    intro x h
    simp only [findIdxA, List.cons_append] at h ⊢
    by_cases hp : p y
    · rw [if_pos hp] at h; simp at h
    · rw [if_neg hp] at h ⊢
      cases hfi : findIdxA p ys with
      | none =>
        rw [hfi] at h
        rw [List.append_eq, ih x hfi]
        by_cases hx : p x <;> simp [hx]
      | some i' => rw [hfi] at h; simp at h

theorem filter_modifyAt_length (p : Row → Bool) (l : List Row) :
    ∀ (i : Nat) (f : Row → Row), (∀ r, p (f r) = p r) →
      ((modifyAt l i f).filter p).length = (l.filter p).length := by
  induction l with
  | nil => intro i f _; cases i <;> rfl
  | cons x xs ih =>
    intro i f hf
    cases i with
    | zero =>
      simp only [modifyAt, List.filter_cons, hf x]
      split <;> simp
    | succ n =>
      simp only [modifyAt, List.filter_cons]
      split <;> simp [ih n f hf]

/-! ## Merge lemmas for `add_daily_data` -/

theorem preserveManual_get_nonmanual (cols : List String) (col : String)
    (h : is_manual_field col = false) :
    ∀ (acc : Row) (r md : Row),
      alGet (cols.foldl
        (fun acc c =>
          if is_manual_field c ∧ ¬ cellNonBlank (alGetD r c .blank) then
            if md ≠ [] then
              match md.find? (fun kv => strContains c kv.1 || strContains kv.1 c) with
              | some kv => alSet acc c kv.2
              | none => acc
            else acc
          else acc) acc) col = alGet acc col := by
  induction cols with
  | nil => intro acc r md; rfl
  | cons c cs ih =>
    intro acc r md
    rw [List.foldl_cons, ih]
    by_cases hm : is_manual_field c ∧ ¬ cellNonBlank (alGetD r c .blank)
    · rw [if_pos hm]
      have hne : col ≠ c := fun hh => by
        rw [hh] at h
        rw [h] at hm
        simp at hm
      by_cases hmd : md ≠ []
      · rw [if_pos hmd]
        cases md.find? (fun kv => strContains c kv.1 || strContains kv.1 c) with
        | some kv => exact alGet_alSet_ne _ _ _ _ hne
        | none => rfl
      · rw [if_neg hmd]
    · rw [if_neg hm]

theorem preserveManual_nonblank (cols : List String) (col : String) (r : Row)
    (hb : cellNonBlank (alGetD r col .blank) = true) :
    ∀ (acc : Row) (md : Row),
      alGet (cols.foldl
        (fun acc c =>
          if is_manual_field c ∧ ¬ cellNonBlank (alGetD r c .blank) then
            if md ≠ [] then
              match md.find? (fun kv => strContains c kv.1 || strContains kv.1 c) with
              | some kv => alSet acc c kv.2
              | none => acc
            else acc
          else acc) acc) col = alGet acc col := by
  induction cols with
  | nil => intro acc md; rfl
  | cons c cs ih =>
    intro acc md
    rw [List.foldl_cons, ih]
    by_cases hm : is_manual_field c ∧ ¬ cellNonBlank (alGetD r c .blank)
    · rw [if_pos hm]
      have hne : col ≠ c := fun hh => by
        rw [← hh] at hm
        rw [hb] at hm
        simp at hm
      by_cases hmd : md ≠ []
      · rw [if_pos hmd]
        cases md.find? (fun kv => strContains c kv.1 || strContains kv.1 c) with
        | some kv => exact alGet_alSet_ne _ _ _ _ hne
        | none => rfl
      · rw [if_neg hmd]
    · rw [if_neg hm]

theorem update_wb_fields_manual (cols : List String) (col : String)
    (h : is_manual_field col = true) :
    ∀ (acc wb : Row), alGet (update_wb_fields cols acc wb) col = alGet acc col := by
  induction cols with
  | nil => intro acc wb; rfl
  | cons c cs ih =>
    intro acc wb
    unfold update_wb_fields at ih ⊢
    rw [List.foldl_cons, ih]
    by_cases hm : is_manual_field c
    · rw [if_pos hm]
    · rw [if_neg hm]
      have hne : col ≠ c := fun hh => by rw [hh, Bool.eq_false_iff.mpr hm] at h; exact Bool.false_ne_true h
      cases updateFieldKey c with
      | some k => exact alGet_alSet_ne _ _ _ _ hne
      | none => rfl

theorem update_wb_fields_key_none (cols : List String) (col : String)
    (h : updateFieldKey col = none) :
    ∀ (acc wb : Row), alGet (update_wb_fields cols acc wb) col = alGet acc col := by
  induction cols with
  | nil => intro acc wb; rfl
  | cons c cs ih =>
    intro acc wb
    unfold update_wb_fields at ih ⊢
    rw [List.foldl_cons, ih]
    by_cases hm : is_manual_field c
    · rw [if_pos hm]
    · rw [if_neg hm]
      cases hk : updateFieldKey c with
      | some k =>
        have hne : col ≠ c := fun hh => by rw [hh, hk] at h; exact Option.some_ne_none _ h
        exact alGet_alSet_ne _ _ _ _ hne
      | none => rfl

theorem update_wb_fields_not_mem (cols : List String) (col : String) :
    ∀ (acc wb : Row), col ∉ cols →
      alGet (update_wb_fields cols acc wb) col = alGet acc col := by
  induction cols with
  | nil => intro acc wb _; rfl
  | cons c cs ih =>
    intro acc wb hmem
    have hne : col ≠ c := fun hh => hmem (by rw [hh]; exact List.mem_cons_self c cs)
    have hmem' : col ∉ cs := fun hh => hmem (List.mem_cons_of_mem c hh)
    unfold update_wb_fields at ih ⊢
    rw [List.foldl_cons, ih _ _ hmem']
    by_cases hm : is_manual_field c
    · rw [if_pos hm]
    · rw [if_neg hm]
      cases updateFieldKey c with
      | some k => exact alGet_alSet_ne _ _ _ _ hne
      | none => rfl

theorem update_wb_fields_value (cols : List String) (col : String) (k : String)
    (hm : is_manual_field col = false) (hk : updateFieldKey col = some k) :
    ∀ (acc wb : Row), col ∈ cols →
      alGet (update_wb_fields cols acc wb) col
        = some (safe_set_value (wbGet wb k)) := by
  induction cols with
  | nil => intro acc wb h; simp at h
  | cons c cs ih =>
    intro acc wb hmem
    unfold update_wb_fields at ih ⊢
    rw [List.foldl_cons]
    by_cases hcs : col ∈ cs
    · exact ih _ _ hcs
    · have hcc : c = col := by
        rcases List.mem_cons.mp hmem with h1 | h1
        · exact h1.symm
        · exact absurd h1 hcs
      subst hcc
      rw [if_neg (by rw [hm]; exact Bool.false_ne_true), hk]
      have := update_wb_fields_not_mem cs c
      unfold update_wb_fields at this
      rw [this _ _ hcs]
      exact alGet_alSet_self _ _ _

theorem mergeRow_system (cols : List String) (r wb md : Row) (col k : String)
    (hm : is_manual_field col = false) (hk : updateFieldKey col = some k)
    (hmem : col ∈ cols) :
    alGet (mergeRow cols r wb md) col = some (safe_set_value (wbGet wb k)) := by
  unfold mergeRow
  exact update_wb_fields_value cols col k hm hk _ wb hmem

theorem mergeRow_manual_nonblank (cols : List String) (r wb md : Row) (col : String)
    (hm : is_manual_field col = true)
    (hb : cellNonBlank (alGetD r col .blank) = true) :
    alGet (mergeRow cols r wb md) col = alGet r col := by
  unfold mergeRow
  rw [update_wb_fields_manual cols col hm]
  exact preserveManual_nonblank cols col r hb r md

theorem mergeRow_date (cols : List String) (r wb md : Row) :
    alGet (mergeRow cols r wb md) "акк/дата" = alGet r "акк/дата" := by
  unfold mergeRow
  rw [update_wb_fields_key_none cols _ (by decide)]
  exact preserveManual_get_nonmanual cols _ (by decide) r r md

theorem rowMatches_congr (r r' : Row) (date : String)
    (h : alGet r' "акк/дата" = alGet r "акк/дата") :
    rowMatches r' date = rowMatches r date := by
  unfold rowMatches alGetD
  rw [h]

theorem rowMatches_mergeRow (cols : List String) (r wb md : Row) (date : String) :
    rowMatches (mergeRow cols r wb md) date = rowMatches r date :=
  rowMatches_congr _ _ _ (mergeRow_date cols r wb md)

theorem buildNewRow_date (cols : List String) (date : String) (wb md : Row)
    (hdc : findDateCol cols = some "акк/дата") :
    alGet (buildNewRow cols date wb md) "акк/дата" = some (.str date) := by
  simp only [buildNewRow, hdc]
  split_ifs <;>
    first
      | exact alGet_alSet_self _ _ _
      | simp_all

theorem rowMatches_buildNewRow (cols : List String) (date : String) (wb md : Row)
    (hdc : findDateCol cols = some "акк/дата")
    (htok : strContains date (dayToken date) = true) :
    rowMatches (buildNewRow cols date wb md) date = true := by
  unfold rowMatches alGetD
  rw [buildNewRow_date cols date wb md hdc]
  simpa [cellStr] using htok

theorem add_daily_data_cols (t : Table) (date : String) (wb md : Row) :
    (add_daily_data t date wb md).cols = t.cols := by
  unfold add_daily_data
  cases matchIdx t date <;> rfl

/-! ## C7 — substring row matching in `add_daily_data` -/

/-- C7: a row matches the date exactly when the day token (the substring of
the date before the first `'.'`) occurs in the row's date cell rendered as a
string — not by exact equality — and the first such row in table order is
the one updated in place (rows before it do not match, the table keeps its
length, and no other row changes).  The last conjunct shows a date cell
that matches without being equal to the date. -/
theorem add_daily_data_substring_match (t : Table) (date : String) (wb md : Row)
    (i : Nat)
    (h : findIdxA (fun r =>
        strContains (cellStr (alGetD r "акк/дата" .blank)) (dayToken date)) t.rows
      = some i) :
    (add_daily_data t date wb md).rows
        = modifyAt t.rows i (fun r => mergeRow t.cols r wb md)
    ∧ (add_daily_data t date wb md).rows.length = t.rows.length
    ∧ (∀ j r, j < i → t.rows[j]? = some r →
        strContains (cellStr (alGetD r "акк/дата" .blank)) (dayToken date) = false)
    ∧ (∀ j, j ≠ i → (add_daily_data t date wb md).rows[j]? = t.rows[j]?)
    ∧ (strContains (cellStr (.str "акк 05 итог")) (dayToken "05.01.2024") = true
        ∧ cellStr (.str "акк 05 итог") ≠ "05.01.2024") := by
  have h' : matchIdx t date = some i := h
  have hrows : (add_daily_data t date wb md).rows
      = modifyAt t.rows i (fun r => mergeRow t.cols r wb md) := by
    unfold add_daily_data
    rw [h']
  refine ⟨hrows, ?_, ?_, ?_, by decide, by decide⟩
  · rw [hrows]
    exact modifyAt_length _ _ _
  · exact fun j r hj hr => findIdxA_lt_false _ t.rows i h j r hj hr
  · intro j hj
    rw [hrows]
    exact modifyAt_get_ne _ _ _ _ hj

/-- A row whose date cell does not contain the day token `05`. -/
def c7Row0 : Row := [("акк/дата", .str "header note")]

/-- A row whose date cell contains `05` without being the date string. -/
def c7Row1 : Row := [("акк/дата", .str "акк 05 итог")]

/-- A two-row table for the matching witness. -/
def c7T : Table := { cols := ["акк/дата"], rows := [c7Row0, c7Row1] }

theorem add_daily_data_substring_match_witness :
    findIdxA (fun r =>
        strContains (cellStr (alGetD r "акк/дата" .blank)) (dayToken "05.01.2024"))
      c7T.rows = some 1
    ∧ ((add_daily_data c7T "05.01.2024" [] []).rows
        = modifyAt c7T.rows 1 (fun r => mergeRow c7T.cols r [] [])
      ∧ (add_daily_data c7T "05.01.2024" [] []).rows.length = c7T.rows.length
      ∧ (∀ j r, j < 1 → c7T.rows[j]? = some r →
          strContains (cellStr (alGetD r "акк/дата" .blank)) (dayToken "05.01.2024")
            = false)
      ∧ (∀ j, j ≠ 1 → (add_daily_data c7T "05.01.2024" [] []).rows[j]? = c7T.rows[j]?)
      ∧ (strContains (cellStr (.str "акк 05 итог")) (dayToken "05.01.2024") = true
          ∧ cellStr (.str "акк 05 итог") ≠ "05.01.2024")) :=
  ⟨by decide, add_daily_data_substring_match c7T "05.01.2024" [] [] 1 (by decide)⟩

/-! ## C10 — `update_row` matches exactly and ignores unknown columns -/

theorem applyUpdates_not_mem (cols : List String) (updates : Row) (k : String)
    (hk : k ∉ cols) :
    ∀ r, alGet (applyUpdates cols r updates) k = alGet r k := by
  induction updates with
  | nil => intro r; rfl
  | cons u us ih =>
    intro r
    unfold applyUpdates at ih ⊢
    rw [List.foldl_cons]
    rw [ih]
    by_cases hu : u.1 ∈ cols
    · rw [if_pos hu]
      exact alGet_alSet_ne _ _ _ _ (fun hh => hk (hh ▸ hu))
    · rw [if_neg hu]

/-- C10: `update_row` matches rows by exact string equality on the date
column (a date cell merely containing the date does not match, last
conjunct); with no matching row it raises `ValueError` and never reaches
`write_data` (the `.error` result carries no table); on success every row is
either untouched (non-matching) or gets exactly the updates whose keys are
existing columns; unknown update keys change nothing. -/
theorem update_row_exact_match (t : Table) (date : String) (updates : Row) :
    ((∀ r ∈ t.rows, cellEqStr (alGet r "акк/дата") date = false) →
      update_row t date updates
        = .error ("Строка с датой " ++ date ++ " не найдена"))
    ∧ (∀ t', update_row t date updates = .ok t' →
        t'.cols = t.cols
        ∧ t'.rows.length = t.rows.length
        ∧ (∀ (j : Nat) (r : Row), t.rows[j]? = some r →
            t'.rows[j]? = some (if cellEqStr (alGet r "акк/дата") date
              then applyUpdates t.cols r updates else r)))
    ∧ (∀ k, k ∉ t.cols → ∀ r, alGet (applyUpdates t.cols r updates) k = alGet r k)
    ∧ cellEqStr (some (.str ("x" ++ date))) date = false := by
  refine ⟨?_, ?_, fun k hk r => applyUpdates_not_mem t.cols updates k hk r, ?_⟩
  · intro hall
    unfold update_row
    rw [if_neg]
    intro hany
    obtain ⟨r, hr, hpr⟩ := List.any_eq_true.mp hany
    rw [hall r hr] at hpr
    exact Bool.false_ne_true hpr
  · intro t' ht'
    unfold update_row at ht'
    split_ifs at ht' with hany
    · simp only [Except.ok.injEq] at ht'
      subst ht'
      refine ⟨rfl, by simp, ?_⟩
      intro j r hr
      simp [List.getElem?_map, hr]
  · simp only [cellEqStr]
    rw [decide_eq_false_iff_not]
    intro hh
    have h2 := congrArg String.length hh
    rw [String.length_append] at h2
    have h1 : "x".length = 1 := rfl
    omega

/-- A table whose single row's date cell strictly contains the date. -/
def c10T : Table :=
  { cols := ["акк/дата", "комментарий"]
    rows := [[("акк/дата", .str "05.01.2024 note")]] }

theorem update_row_exact_match_witness :
    (∀ r ∈ c10T.rows, cellEqStr (alGet r "акк/дата") "05.01.2024" = false)
    ∧ update_row c10T "05.01.2024" [("комментарий", .str "x")]
        = .error ("Строка с датой " ++ "05.01.2024" ++ " не найдена") :=
  ⟨by decide,
    (update_row_exact_match c10T "05.01.2024" [("комментарий", .str "x")]).1
      (by decide)⟩

/-! ## C2 — upserting the same date twice -/

theorem memOfGet {α : Type} : ∀ (l : List α) (i : Nat) (x : α), l[i]? = some x → x ∈ l := by
  intro l
  induction l with
  | nil => intro i x h; simp at h
  | cons y ys ih =>
    intro i x h
    cases i with
    | zero => simp at h; subst h; exact List.mem_cons_self _ _
    | succ n =>
      simp only [List.getElem?_cons_succ] at h
      exact List.mem_cons_of_mem _ (ih n x h)

theorem getElem?_append_len {α : Type} : ∀ (l : List α) (x : α), (l ++ [x])[l.length]? = some x := by
  intro l
  induction l with
  | nil => intro x; rfl
  | cons y ys ih => intro x; simpa using ih x

theorem add_daily_data_matched (t : Table) (d : String) (wb md : Row) (i : Nat)
    (hm : matchIdx t d = some i) :
    add_daily_data t d wb md
      = { t with rows := modifyAt t.rows i (fun r => mergeRow t.cols r wb md) } := by
  unfold add_daily_data
  rw [hm]

theorem add_daily_data_unmatched (t : Table) (d : String) (wb md : Row)
    (hm : matchIdx t d = none) :
    add_daily_data t d wb md
      = { t with rows := t.rows ++ [buildNewRow t.cols d wb md] } := by
  unfold add_daily_data
  rw [hm]

theorem add_daily_data_step_matched (t : Table) (d : String) (wb md : Row)
    (i : Nat) (r : Row) (hm : matchIdx t d = some i) (hr : t.rows[i]? = some r) :
    (add_daily_data t d wb md).cols = t.cols
    ∧ matchIdx (add_daily_data t d wb md) d = some i
    ∧ (add_daily_data t d wb md).rows[i]? = some (mergeRow t.cols r wb md)
    ∧ countMatching (add_daily_data t d wb md) d = countMatching t d
    ∧ (add_daily_data t d wb md).rows.length = t.rows.length := by
  rw [add_daily_data_matched t d wb md i hm]
  refine ⟨rfl, ?_, ?_, ?_, ?_⟩
  · show findIdxA _ (modifyAt t.rows i _) = some i
    rw [findIdxA_modifyAt _ t.rows i _ (fun r => rowMatches_mergeRow t.cols r wb md d)]
    exact hm
  · exact modifyAt_get t.rows i _ r hr
  · show (List.filter _ (modifyAt t.rows i _)).length = countMatching t d
    rw [filter_modifyAt_length _ t.rows i _ (fun r => rowMatches_mergeRow t.cols r wb md d)]
    rfl
  · exact modifyAt_length t.rows i _

theorem countMatching_pos (t : Table) (d : String) (i : Nat) (r : Row)
    (hr : t.rows[i]? = some r) (hp : rowMatches r d = true) :
    1 ≤ countMatching t d := by
  have hmem : r ∈ t.rows.filter (fun r => rowMatches r d) :=
    List.mem_filter.mpr ⟨memOfGet t.rows i r hr, hp⟩
  have := List.length_pos.mpr (List.ne_nil_of_mem hmem)
  unfold countMatching
  omega

theorem countMatching_zero (t : Table) (d : String) (hm : matchIdx t d = none) :
    countMatching t d = 0 := by
  have hall := (findIdxA_none_iff (fun r => rowMatches r d) t.rows).mp hm
  unfold countMatching
  have : t.rows.filter (fun r => rowMatches r d) = [] := by
    rw [List.filter_eq_nil]
    intro a ha
    simp [hall a ha]
  rw [this]
  rfl

/-- C2 (amended): for every table with at most one row matching the date,
every date in `DD.MM.YYYY` form (its day token is a substring of it) and
a date-column search resolving to the literal `акк/дата` column, two
successive `add_daily_data` calls leave exactly one matching row (the
second call updates in place, adding no duplicate: the row count of the
second call equals the first's), the matched row after the second call is
the first call's row merged with the second call's data — so every system
column with a mapping holds the second call's value — and every manual
column that was non-blank after the first call is unchanged by the second
call. -/
theorem add_daily_data_upsert (t : Table) (d : String) (wb₁ wb₂ md₁ md₂ : Row)
    (h1 : countMatching t d ≤ 1)
    (h2 : findDateCol t.cols = some "акк/дата")
    (h3 : strContains d (dayToken d) = true) :
    ∃ (i : Nat) (r₁ r₂ : Row),
      matchIdx (add_daily_data t d wb₁ md₁) d = some i
      ∧ (add_daily_data t d wb₁ md₁).rows[i]? = some r₁
      ∧ matchIdx (add_daily_data (add_daily_data t d wb₁ md₁) d wb₂ md₂) d = some i
      ∧ (add_daily_data (add_daily_data t d wb₁ md₁) d wb₂ md₂).rows[i]? = some r₂
      ∧ countMatching (add_daily_data (add_daily_data t d wb₁ md₁) d wb₂ md₂) d = 1
      ∧ (add_daily_data (add_daily_data t d wb₁ md₁) d wb₂ md₂).rows.length
          = (add_daily_data t d wb₁ md₁).rows.length
      ∧ r₂ = mergeRow t.cols r₁ wb₂ md₂
      ∧ (∀ col k, col ∈ t.cols → is_manual_field col = false →
          updateFieldKey col = some k →
          alGet r₂ col = some (safe_set_value (wbGet wb₂ k)))
      ∧ (∀ col, is_manual_field col = true →
          cellNonBlank (alGetD r₁ col .blank) = true →
          alGet r₂ col = alGet r₁ col) := by
  cases hmi : matchIdx t d with
  | some i =>
    obtain ⟨r₀, hr₀, hp₀⟩ := findIdxA_get_true (fun r => rowMatches r d) t.rows i hmi
    have hcm1 : countMatching t d = 1 := by
      have := countMatching_pos t d i r₀ hr₀ hp₀
      omega
    obtain ⟨hc1, hm1, hg1, hcnt1, hlen1⟩ :=
      add_daily_data_step_matched t d wb₁ md₁ i r₀ hmi hr₀
    obtain ⟨hc2, hm2, hg2, hcnt2, hlen2⟩ :=
      add_daily_data_step_matched (add_daily_data t d wb₁ md₁) d wb₂ md₂ i
        (mergeRow t.cols r₀ wb₁ md₁) hm1 hg1
    rw [hc1] at hg2
    refine ⟨i, mergeRow t.cols r₀ wb₁ md₁, mergeRow t.cols (mergeRow t.cols r₀ wb₁ md₁) wb₂ md₂,
      hm1, hg1, hm2, hg2, ?_, hlen2, rfl, ?_, ?_⟩
    · rw [hcnt2, hcnt1, hcm1]
    · intro col k hmem hman hkey
      exact mergeRow_system t.cols _ wb₂ md₂ col k hman hkey hmem
    · intro col hman hb
      exact mergeRow_manual_nonblank t.cols _ wb₂ md₂ col hman hb
  | none =>
    have hcm0 : countMatching t d = 0 := countMatching_zero t d hmi
    rw [add_daily_data_unmatched t d wb₁ md₁ hmi]
    have hN : rowMatches (buildNewRow t.cols d wb₁ md₁) d = true :=
      rowMatches_buildNewRow t.cols d wb₁ md₁ h2 h3
    have hm1 : matchIdx { t with rows := t.rows ++ [buildNewRow t.cols d wb₁ md₁] } d
        = some t.rows.length := by
      show findIdxA _ (t.rows ++ [buildNewRow t.cols d wb₁ md₁]) = some t.rows.length
      rw [findIdxA_append_singleton _ t.rows _ hmi, hN]
      simp
    have hg1 : ({ t with rows := t.rows ++ [buildNewRow t.cols d wb₁ md₁] } : Table).rows[t.rows.length]?
        = some (buildNewRow t.cols d wb₁ md₁) := getElem?_append_len t.rows _
    obtain ⟨hc2, hm2, hg2, hcnt2, hlen2⟩ :=
      add_daily_data_step_matched { t with rows := t.rows ++ [buildNewRow t.cols d wb₁ md₁] }
        d wb₂ md₂ t.rows.length (buildNewRow t.cols d wb₁ md₁) hm1 hg1
    have hcnt1 : countMatching { t with rows := t.rows ++ [buildNewRow t.cols d wb₁ md₁] } d = 1 := by
      show (List.filter _ (t.rows ++ [buildNewRow t.cols d wb₁ md₁])).length = 1
      rw [List.filter_append]
      have h0 : (t.rows.filter (fun r => rowMatches r d)).length = 0 := hcm0
      simp only [List.length_append, h0, List.filter, hN]
      simp
    refine ⟨t.rows.length, buildNewRow t.cols d wb₁ md₁,
      mergeRow t.cols (buildNewRow t.cols d wb₁ md₁) wb₂ md₂,
      hm1, hg1, hm2, hg2, ?_, hlen2, rfl, ?_, ?_⟩
    · rw [hcnt2, hcnt1]
    · intro col k hmem hman hkey
      exact mergeRow_system t.cols _ wb₂ md₂ col k hman hkey hmem
    · intro col hman hb
      exact mergeRow_manual_nonblank t.cols _ wb₂ md₂ col hman hb

/-- A row whose date cell is exactly the example date. -/
def c2Row : Row := [("акк/дата", Cell.str "05.01.2024")]

/-- A table that already holds two rows matching the example date. -/
def c2T : Table := { cols := ["акк/дата"], rows := [c2Row, c2Row] }

/-- C2 counterexample: on a table that already contains two rows matching
the date, two `add_daily_data` calls leave two matching rows, not exactly
one — the claim quantified over *every* table state is false; only the
first matching row is ever updated. -/
theorem add_daily_data_upsert_counterexample :
    countMatching
        (add_daily_data (add_daily_data c2T "05.01.2024" [] []) "05.01.2024" [] [])
        "05.01.2024" = 2
    ∧ (2 : Nat) ≠ 1 := by
  refine ⟨by decide, by decide⟩

/-- An empty report table with a date, a system and a manual column. -/
def c2W : Table :=
  { cols := ["акк/дата", "Касса день", "комментарий"], rows := [] }

/-- Second-call system data for the upsert witness. -/
def c2Wb : Row := [("Касса день", Cell.num 500)]

theorem add_daily_data_upsert_witness :
    countMatching c2W "05.01.2024" ≤ 1
    ∧ findDateCol c2W.cols = some "акк/дата"
    ∧ strContains "05.01.2024" (dayToken "05.01.2024") = true
    ∧ (∃ (i : Nat) (r₁ r₂ : Row),
      matchIdx (add_daily_data c2W "05.01.2024" [] []) "05.01.2024" = some i
      ∧ (add_daily_data c2W "05.01.2024" [] []).rows[i]? = some r₁
      ∧ matchIdx (add_daily_data (add_daily_data c2W "05.01.2024" [] [])
          "05.01.2024" c2Wb []) "05.01.2024" = some i
      ∧ (add_daily_data (add_daily_data c2W "05.01.2024" [] [])
          "05.01.2024" c2Wb []).rows[i]? = some r₂
      ∧ countMatching (add_daily_data (add_daily_data c2W "05.01.2024" [] [])
          "05.01.2024" c2Wb []) "05.01.2024" = 1
      ∧ (add_daily_data (add_daily_data c2W "05.01.2024" [] [])
          "05.01.2024" c2Wb []).rows.length
          = (add_daily_data c2W "05.01.2024" [] []).rows.length
      ∧ r₂ = mergeRow c2W.cols r₁ c2Wb []
      ∧ (∀ col k, col ∈ c2W.cols → is_manual_field col = false →
          updateFieldKey col = some k →
          alGet r₂ col = some (safe_set_value (wbGet c2Wb k)))
      ∧ (∀ col, is_manual_field col = true →
          cellNonBlank (alGetD r₁ col .blank) = true →
          alGet r₂ col = alGet r₁ col)) :=
  ⟨by decide, by decide, by decide,
    add_daily_data_upsert c2W "05.01.2024" [] c2Wb [] []
      (by decide) (by decide) (by decide)⟩
